import Mathlib

/-!
Verification of the streaming CSV ingestion and reconciliation engine of the
postalwiki server (src/services/SocialScrape.service.js and
src/controllers/SocialScrape.controller.js).

The JavaScript source is shallowly embedded: pure helper functions become Lean
functions on `String`/`List Char`, the mutable progress trackers become explicit
state values, awaited store calls become oracle parameters, and thrown JS errors
become `Except`/`Option` results.  Machine-level JS semantics that matter here
(string truthiness, block scoping of `const`, `Date` invalidity, regex
behaviour of the concrete patterns used) are modelled explicitly where they are
load-bearing.
-/

/-! ## Small character utilities -/

/-- Line terminators for JS regexp `.` (which never matches them, absent the `s` flag). -/
def isLineTerm (c : Char) : Bool :=
  c == '\n' || c == '\r' || c == ' ' || c == ' '

/-- ASCII upper-case partner of the lower-case letters appearing in the literal
regex patterns `http`, `https`, `www`.  JS case-insensitive matching of these
ASCII letters accepts exactly the two cases (non-ASCII canonicalization cannot
produce an ASCII letter for a non-`u` regex). -/
def asciiUpper : Char → Char
  | 'h' => 'H'
  | 't' => 'T'
  | 'p' => 'P'
  | 's' => 'S'
  | 'w' => 'W'
  | c => c

/-- Case-insensitive match of one literal pattern character (pattern characters
are lower case) against one subject character. -/
def charMatchI (pat c : Char) : Bool :=
  (c == pat) || (c == asciiUpper pat)

/-- Does `l` start with the literal pattern `p`, case-insensitively
(i.e. does the anchored regex `^p` with the `i` flag match)? -/
def matchLitI : List Char → List Char → Bool
  | [], _ => true
  | _ :: _, [] => false
  | p :: ps, c :: cs => charMatchI p c && matchLitI ps cs

/-! ## List-based string primitives

The byte-position-based `String` primitives of the Lean library do not reduce
inside the kernel, so the JS string operations used by the source are modelled
on `List Char` and wrapped back into `String`. -/

/-- Does `p` occur literally at the head of `l`? (JS `String.startsWith`.) -/
def leadLit : List Char → List Char → Bool
  | [], _ => true
  | _ :: _, [] => false
  | p :: ps, c :: cs => (c == p) && leadLit ps cs

/-- JS `s.startsWith(pat)`. -/
def jsStartsWith (s pat : String) : Bool :=
  leadLit pat.data s.data

/-- JS `s.substring(n)` for character index `n` (all our uses are ASCII). -/
def jsDropChars (s : String) (n : Nat) : String :=
  String.mk (s.data.drop n)

/-- JS `s.length` (character count; all our uses are ASCII). -/
def jsLength (s : String) : Nat :=
  s.data.length

/-- Split on a single separator character (JS `s.split(sep)` for a one-char
separator). -/
def splitSep1 (a : Char) : List Char → List Char → List (List Char)
  | acc, [] => [acc.reverse]
  | acc, c :: rest =>
    if c == a then acc.reverse :: splitSep1 a [] rest
    else splitSep1 a (c :: acc) rest

/-- Split on a two-character separator, left to right, non-overlapping
(JS `s.split(sep)` for a two-char separator). -/
def splitSep2 (a b : Char) : List Char → List Char → List (List Char)
  | acc, c1 :: c2 :: rest =>
    if c1 == a && c2 == b then acc.reverse :: splitSep2 a b [] rest
    else splitSep2 a b (c1 :: acc) (c2 :: rest)
  | acc, rest => [acc.reverse ++ rest]

/-! ## URL normalisation (`trimUrl` in `processRecord`, service lines 272-278)

The source applies three chained `String.replace` calls:
  `.replace(/^(https?:\/\/)/i, '')` — strip one leading `http://`/`https://`;
  `.replace(/^www\./i, '')` — strip one leading `www.`;
  `.replace(/^([^/]+).*?$/, '$1')` — keep the maximal leading run of
     non-`/` characters, dropping the rest.
For the third regex: the match must span the whole string (it is anchored at
both ends), `[^/]` matches line terminators but `.` does not, and `$` (no `m`
flag) only matches at the very end.  Hence it matches iff the string starts
with a non-`/` character and the part after the maximal non-`/` prefix is free
of line terminators; otherwise the replace is the identity. -/

def stripHttpL (l : List Char) : List Char :=
  if matchLitI "https://".data l then l.drop 8
  else if matchLitI "http://".data l then l.drop 7
  else l

def stripWwwL (l : List Char) : List Char :=
  if matchLitI "www.".data l then l.drop 4 else l

def collapsePathL (l : List Char) : List Char :=
  let pre := l.takeWhile (· != '/')
  let rest := l.dropWhile (· != '/')
  if pre ≠ [] ∧ rest.all (fun c => !(isLineTerm c)) then pre else l

/-- The three replaces of `trimUrl`, on `List Char`. -/
def urlReplaceChainL (l : List Char) : List Char :=
  collapsePathL (stripWwwL (stripHttpL l))

/-- The three replaces of `trimUrl`, on `String` (also reused by the
blacklist/phone URL-cleaning paths, which apply the same regex chain). -/
def urlReplaceChain (s : String) : String :=
  String.mk (urlReplaceChainL s.data)

/-- Embeds `trimUrl` (service lines 272-278): `if (!url) return ''` then the three
replaces.  A JS `null`/`undefined` argument behaves like the empty string here
(both are falsy), so the embedding takes a `String`. -/
def trimUrl (s : String) : String :=
  if s = "" then "" else urlReplaceChain s

/-- Does the string start, case-insensitively, with `www.` ?  (The condition
under which a second application of `trimUrl` strips further.) -/
def startsWithWwwI (s : String) : Bool :=
  matchLitI "www.".data s.data

/-! ## Phone number cleaning, formatting and validation
(service lines 674-867: `isValidPhoneNumber`, `cleanPhoneNumber`,
`formatPhoneWithCountryCode`, `checkPhoneLength`, `getExpectedLength`) -/

/-- One entry of the country calling-code table.  `phoneLength = []` encodes an
absent (falsy) `phoneLength` property; a singleton encodes a scalar length; a
longer list encodes an array of allowed lengths.  `min`/`max` are the fallback
range bounds used by `checkPhoneLength` when `phoneLength` is absent. -/
structure CountryRule where
  label : String
  phone : String
  phoneLength : List Nat
  minLen : Option Nat
  maxLen : Option Nat
deriving DecidableEq, Repr

/-- Modelled from the spec: the country calling-code table
`utils/phone_country_code.js` required by `formatPhoneWithCountryCode` is not
under src/.  The entries follow the spec (sections 4.1 and 8): United Kingdom
+44 with 10 national digits (`+44535931969` gains a leading 0 to reach 10),
Czech Republic +420 with 9 digits, North America +1 with 10 digits, and
Jamaica +1876 (the spec's long-code collision example); the table is ordered
longest-code-first as section 4.1 prescribes. -/
def countryPhoneCodes : List CountryRule :=
  [⟨"Jamaica", "1876", [7], none, none⟩,
   ⟨"Czech Republic", "420", [9], none, none⟩,
   ⟨"United Kingdom", "44", [10], none, none⟩,
   ⟨"United States", "1", [10], none, none⟩]

/-- Embeds `checkPhoneLength` (service lines 835-850): an array `phoneLength` is a
membership test, a scalar one an equality test; with `phoneLength` absent,
fall back to the `min`/`max` range when both are present, else reject. -/
def checkPhoneLength (digits : String) (c : CountryRule) : Bool :=
  if c.phoneLength ≠ [] then c.phoneLength.contains (jsLength digits)
  else
    match c.minLen, c.maxLen with
    | some mn, some mx => decide (mn ≤ jsLength digits ∧ jsLength digits ≤ mx)
    | _, _ => false

/-- Embeds `getExpectedLength` (service lines 853-867): first allowed length, else
`min`, else the default 10. -/
def getExpectedLength (c : CountryRule) : Nat :=
  if c.phoneLength ≠ [] then c.phoneLength.headD 10
  else
    match c.minLen with
    | some mn => mn
    | none => 10

/-- JS `replace(/\D/g, '')`: keep only the ASCII digits. -/
def jsDigits (s : String) : String :=
  String.mk (s.data.filter Char.isDigit)

/-- One iteration of the country scan inside `formatPhoneWithCountryCode`:
`pre` is `"+"` for the first scan and `""` for the second.  A country whose
code is a prefix but whose length check fails (and cannot be fixed by a
leading 0) yields `none` and the scan continues with the next country, exactly
as the source's `for` loop does. -/
def countryAttempt (pre : String) (phone : String) (c : CountryRule) : Option String :=
  let code := pre ++ c.phone
  if jsStartsWith phone code then
    let numberPart := jsDropChars phone (jsLength code)
    let digitsOnly := jsDigits numberPart
    if checkPhoneLength digitsOnly c then
      some ("[+" ++ c.phone ++ "] " ++ digitsOnly)
    else if jsLength digitsOnly + 1 = getExpectedLength c then
      some ("[+" ++ c.phone ++ "] 0" ++ digitsOnly)
    else
      none
  else none

/-- Embeds `formatPhoneWithCountryCode` (service lines 739-832).  The source computes
`isUKDomain` from the `url` argument but never reads it again (it only feeds a
debug log line); the binding is kept here to mirror the source.  Scan the table
for a `+`-prefixed calling-code match, then for a bare match, then fall back to
accepting a bare 10- or 11-digit string; `none` models the JS `null` return. -/
def jsEndsWith (s pat : String) : Bool :=
  leadLit pat.data.reverse s.data.reverse

def formatPhoneWithCountryCode (phone url : String) : Option String :=
  let _isUKDomain : Bool := (url != "") && (jsEndsWith url ".co.uk" || jsEndsWith url ".uk")
  let plusScan : Option String :=
    if jsStartsWith phone "+" then
      countryPhoneCodes.findSome? (countryAttempt "+" phone)
    else none
  match plusScan with
  | some r => some r
  | none =>
    match countryPhoneCodes.findSome? (countryAttempt "" phone) with
    | some r => some r
    | none =>
      let digitsOnly := jsDigits phone
      if jsLength digitsOnly = 10 ∨ jsLength digitsOnly = 11 then some digitsOnly
      else none

/-- JS whitespace characters matched by `\s` that can occur in our inputs. -/
def isJsSpace (c : Char) : Bool :=
  c == ' ' || c == '\t' || c == '\n' || c == '\r' || c == '\x0b' || c == '\x0c' || c == ' '

/-- The character-stripping phase of `cleanPhoneNumber` (service lines
709-722): trim, then remove whitespace, dashes, dots and both bracket kinds
(removing all whitespace subsumes the initial trim). -/
def jsStripPhoneChars (s : String) : String :=
  String.mk (s.data.filter
    (fun c => !(isJsSpace c || c == '-' || c == '.' || c == '(' || c == ')' || c == '[' || c == ']')))

/-- Embeds `cleanPhoneNumber` (service lines 706-736): strip separator characters and
delegate to the country-code formatter; `none` models the JS `null` result for
empty (falsy) input or a failed format. -/
def cleanPhoneNumber (phone url : String) : Option String :=
  if phone = "" then none
  else formatPhoneWithCountryCode (jsStripPhoneChars phone) url

/-- Embeds `isValidPhoneNumber` (service lines 674-703).  Note the source function
takes only the phone string: the cleaning call inside it uses the default
empty `url`.  Valid iff cleaning succeeds and the digit count of the part
after `"] "` (or of the whole cleaned string) is 10 or 11. -/
def isValidPhoneNumber (phone : String) : Bool :=
  if phone = "" then false
  else
    match cleanPhoneNumber phone "" with
    | none => false
    | some cleaned =>
      let digitsOnly :=
        if cleaned.data.contains ']' then
          match splitSep2 ']' ' ' [] cleaned.data with
          | [_, b] => jsDigits (String.mk b)
          | _ => jsDigits cleaned
        else jsDigits cleaned
      decide (jsLength digitsOnly = 10 ∨ jsLength digitsOnly = 11)

/-! ## The document record and the per-group merge
(`mergeRecordsForSameUrlDate`, service lines 222-268)

A JS `Date` value is either a millisecond timestamp or the Invalid Date
(`NaN`); this is modelled as `Option Int`, `none` being Invalid Date.  Absent
string fields of a partial record are falsy exactly like `''`, so both are
modelled as `""`; an absent `phone` behaves in the merge like `[]`. -/

structure SDoc where
  url : String
  date : Option Int
  title : String
  twitter : String
  facebook : String
  instagram : String
  linkedin : String
  youtube : String
  pinterest : String
  email : String
  phone : List String
  postcode : String
  statusCode : String
  redirect_url : String
  meta_description : String
deriving DecidableEq, Repr

/-- The all-empty record with a given identity, the `mergedDoc` initial value
of `mergeRecordsForSameUrlDate` (service lines 228-244). -/
def emptySDoc (url : String) (date : Option Int) : SDoc :=
  ⟨url, date, "", "", "", "", "", "", "", "", [], "", "", "", ""⟩

/-- Deduplication worker: drop elements already seen, in order. -/
def dedupSeen (seen : List String) : List String → List String
  | [] => []
  | x :: xs =>
    if seen.contains x then dedupSeen seen xs
    else x :: dedupSeen (x :: seen) xs

/-- JS `[...new Set(l)]`: deduplicate keeping the first occurrence of each
element, preserving order. -/
def dedupKeepFirst (l : List String) : List String :=
  dedupSeen [] l

/-- One iteration of the merge loop (service lines 247-265): every scalar
field is taken from the incoming record only when it is non-empty and the
accumulator's is still empty; phone lists are unioned via a `Set`. -/
def mergeStep (m : SDoc) (d : SDoc) : SDoc :=
  { m with
    title := if d.title ≠ "" ∧ m.title = "" then d.title else m.title
    twitter := if d.twitter ≠ "" ∧ m.twitter = "" then d.twitter else m.twitter
    facebook := if d.facebook ≠ "" ∧ m.facebook = "" then d.facebook else m.facebook
    instagram := if d.instagram ≠ "" ∧ m.instagram = "" then d.instagram else m.instagram
    linkedin := if d.linkedin ≠ "" ∧ m.linkedin = "" then d.linkedin else m.linkedin
    youtube := if d.youtube ≠ "" ∧ m.youtube = "" then d.youtube else m.youtube
    pinterest := if d.pinterest ≠ "" ∧ m.pinterest = "" then d.pinterest else m.pinterest
    email := if d.email ≠ "" ∧ m.email = "" then d.email else m.email
    postcode := if d.postcode ≠ "" ∧ m.postcode = "" then d.postcode else m.postcode
    statusCode := if d.statusCode ≠ "" ∧ m.statusCode = "" then d.statusCode else m.statusCode
    redirect_url := if d.redirect_url ≠ "" ∧ m.redirect_url = "" then d.redirect_url else m.redirect_url
    meta_description :=
      if d.meta_description ≠ "" ∧ m.meta_description = "" then d.meta_description else m.meta_description
    phone := dedupKeepFirst (m.phone ++ d.phone) }

/-- Embeds `mergeRecordsForSameUrlDate` (service lines 222-268): a single record is
returned unchanged; otherwise an empty skeleton carrying the FIRST record's
`url` and `date` accumulates first-non-empty scalar values and the
deduplicated union of the phone lists over all records in order.  (The source
is never called with an empty group; the `[]` case returns the empty
skeleton of an empty identity.) -/
def mergeRecordsForSameUrlDate (docs : List SDoc) : SDoc :=
  match docs with
  | [] => emptySDoc "" none
  | [d] => d
  | d :: rest => (d :: rest).foldl mergeStep (emptySDoc d.url d.date)

/-- First non-empty string of a list, in order; `""` when there is none
(the value a merged scalar field ends up with). -/
def firstNonEmpty (l : List String) : String :=
  match l.find? (· != "") with
  | some v => v
  | none => ""

/-! ## Domain validation, text cleaning and the record parser
(`processRecord`, service lines 270-372) -/

/-- A character allowed inside a domain label: `[a-zA-Z0-9-]`. -/
def isDomChar (c : Char) : Bool :=
  c.isAlpha || c.isDigit || c == '-'

/-- Modelled from the spec: `isValidDomain` is imported from
`utils/helpers.js`, which is not under src/.  Spec section 4.1: true iff the
string matches `label(.label)+` with alphanumeric/hyphen labels, i.e. the
regex `^[a-zA-Z0-9-]+(\.[a-zA-Z0-9-]+)+$` — at least two non-empty labels
separated by dots. -/
def isValidDomain (s : String) : Bool :=
  let parts := splitSep1 '.' [] s.data
  decide (2 ≤ parts.length) && parts.all (fun p => !p.isEmpty && p.all isDomChar)

/-- A control character removed by `cleanText`: `\x00-\x1F` or `\x7F-\x9F`. -/
def isCtlChar (c : Char) : Bool :=
  c.toNat ≤ 0x1F || (0x7F ≤ c.toNat && c.toNat ≤ 0x9F)

/-- Collapse runs of spaces to a single space (the input has already had all
whitespace mapped to `' '`, so this realises `replace(/\s+/g, ' ')`). -/
def squeezeSpaces : List Char → List Char
  | [] => []
  | [c] => [c]
  | a :: b :: rest =>
    if a == ' ' && b == ' ' then squeezeSpaces (b :: rest)
    else a :: squeezeSpaces (b :: rest)

/-- JS `String.trim` on a character list. -/
def trimWsL (l : List Char) : List Char :=
  ((l.dropWhile isJsSpace).reverse.dropWhile isJsSpace).reverse

/-- JS `String.trim`. -/
def trimWs (s : String) : String :=
  String.mk (trimWsL s.data)

/-- Embeds `cleanText` (service lines 289-296): drop control characters, collapse
whitespace runs to one space, trim, truncate to 400 characters. -/
def cleanText (s : String) : String :=
  if s = "" then ""
  else
    String.mk
      ((trimWsL (squeezeSpaces
        ((s.data.filter (fun c => !(isCtlChar c))).map
          (fun c => if isJsSpace c then ' ' else c)))).take 400)

/-- Embeds `cleanSocialUrl` (service lines 282-287): strip `http(s)://` and a leading
`www.`, then keep everything before the first `?`. -/
def cleanSocialUrl (s : String) : String :=
  if s = "" then ""
  else String.mk ((stripWwwL (stripHttpL s.data)).takeWhile (· != '?'))

/-! ### JS dates

A JS `Date` is a millisecond timestamp or Invalid Date (modelled `none`).
`new Date(undefined)` and `new Date(<unparsable string>)` are both Invalid
Date; only `new Date()` (no argument) is "now".  String parsing is modelled
for the ISO `YYYY-MM-DD` format that a valid reversed `DD/MM/YYYY` input
produces; everything else is treated as unparsable. -/

def isLeapYear (y : Nat) : Bool :=
  (y % 4 == 0 && y % 100 != 0) || y % 400 == 0

def daysInMonth (y m : Nat) : Nat :=
  if m == 2 then (if isLeapYear y then 29 else 28)
  else if m == 4 || m == 6 || m == 9 || m == 11 then 30
  else 31

def natOfDigitsL (l : List Char) : Nat :=
  l.foldl (fun a c => a * 10 + (c.toNat - '0'.toNat)) 0

/-- Days since 1970-01-01 in the proleptic Gregorian calendar. -/
def epochDay (y m d : Nat) : Int :=
  let y' : Int := if m ≤ 2 then (y : Int) - 1 else (y : Int)
  let era : Int := y'.fdiv 400
  let yoe : Int := y' - era * 400
  let mp : Int := ((m : Int) + 9) % 12
  let doy : Int := (153 * mp + 2).fdiv 5 + (d : Int) - 1
  let doe : Int := yoe * 365 + yoe.fdiv 4 - yoe.fdiv 100 + doy
  era * 146097 + doe - 719468

/-- Embeds `new Date(s)` for a string: accepts a calendar-valid `YYYY-MM-DD`,
yielding its UTC-midnight timestamp; otherwise Invalid Date. -/
def jsDateParse (s : String) : Option Int :=
  match splitSep1 '-' [] s.data with
  | [y, m, d] =>
    if (y.length == 4 && y.all Char.isDigit)
        && (m.length == 2 && m.all Char.isDigit)
        && (d.length == 2 && d.all Char.isDigit) then
      let yn := natOfDigitsL y
      let mn := natOfDigitsL m
      let dn := natOfDigitsL d
      if (1 ≤ mn && mn ≤ 12 && 1 ≤ dn && dn ≤ daysInMonth yn mn : Bool) then
        some (86400000 * epochDay yn mn dn)
      else none
    else none
  | _ => none

/-- The date expression of `processRecord` (service line 322):
`new Date(record.DATE?.split('/').reverse().join('-'))`.  A missing `DATE`
short-circuits to `new Date(undefined)`, the Invalid Date. -/
def jsParseDMY : Option String → Option Int
  | none => none
  | some s =>
    jsDateParse (String.mk (List.intercalate ['-'] ((splitSep1 '/' [] s.data).reverse)))

/-! ### `processRecord` -/

/-- One parsed CSV row: the ordered column (name, value) pairs.  A column
missing from the row is an absent key (JS `undefined`). -/
abbrev CsvRow := List (String × String)

/-- JS `Object.values(record)[0]` — the first column's value ("" when the row
is empty, which no valid domain matches anyway). -/
def rowFirstVal (r : CsvRow) : String :=
  (r.head?.map Prod.snd).getD ""

/-- JS property access `record[k]`; `none` is `undefined`. -/
def rowGet (r : CsvRow) (k : String) : Option String :=
  (r.find? (fun kv => kv.1 == k)).map Prod.snd

/-- The `hasOtherData` check of `processRecord` (service lines 310-312): some
entry other than `RESULT` whose value is truthy and non-blank. -/
def hasOtherData (r : CsvRow) : Bool :=
  r.any (fun kv => kv.1 != "RESULT" && kv.2 != "" && trimWs kv.2 != "")

/-- The `switch (record.CODE)` of `processRecord` (service lines 325-363):
populate the one field selected by the type code (`res` is `record.RESULT`,
`""` when absent); unrecognised or absent codes populate nothing. -/
def applyCode (base : SDoc) (res : String) (c : Option String) : SDoc :=
  if c == some "[TI]" then { base with title := cleanText res }
  else if c == some "[SC]" then { base with statusCode := res }
  else if c == some "[ER]" then { base with statusCode := res }
  else if c == some "[PC]" then { base with postcode := cleanText res }
  else if c == some "[EM]" then { base with email := cleanText res }
  else if c == some "[TW]" then { base with twitter := cleanSocialUrl res }
  else if c == some "[FB]" then { base with facebook := cleanSocialUrl res }
  else if c == some "[LK]" then { base with linkedin := cleanSocialUrl res }
  else if c == some "[PT]" then { base with pinterest := cleanSocialUrl res }
  else if c == some "[YT]" then { base with youtube := cleanSocialUrl res }
  else if c == some "[IS]" then { base with instagram := cleanSocialUrl res }
  else if c == some "[RD]" then { base with redirect_url := cleanSocialUrl res }
  else if c == some "[MD]" then { base with meta_description := cleanText res }
  else base

/-- Embeds `processRecord` (service lines 270-372).  Skips (returns `none` for) rows
whose first column is not a valid domain, and sentinel-only rows; otherwise
builds the partial record with the normalised url, the parsed (possibly
Invalid) date, and the single field selected by `CODE`. -/
def processRecord (r : CsvRow) : Option SDoc :=
  let url := rowFirstVal r
  if !(isValidDomain url) then none
  else if (rowGet r "RESULT" == some "Fetch error or no data found"
        || rowGet r "RESULT" == some "not required") && !(hasOtherData r) then none
  else
    some (applyCode (emptySDoc (trimUrl url) (jsParseDMY (rowGet r "DATE")))
      ((rowGet r "RESULT").getD "") (rowGet r "CODE"))

/-! ## The import progress tracker and `insertBatch`
(service lines 24-33, 51-66, 121-219; controller lines 10-129) -/

/-- An entry of `importProgressTracker.errors`: the `{ filename, error }`
objects pushed by the service. -/
structure ImportErr where
  filename : String
  error : String
deriving DecidableEq, Repr

/-- Embeds `importProgressTracker` (service lines 24-33). -/
structure ImportTracker where
  currentFile : Option String
  processed : Nat
  total : Nat
  upserted : Nat
  modified : Nat
  errors : List ImportErr
  isComplete : Bool
  isRunning : Bool
deriving DecidableEq, Repr

/-- Embeds `resetImportProgress` (service lines 51-61). -/
def resetImportProgress : ImportTracker :=
  ⟨none, 0, 0, 0, 0, [], false, false⟩

/-- Embeds `setImportRunning` (service lines 63-66). -/
def setImportRunning (t : ImportTracker) (b : Bool) : ImportTracker :=
  { t with isRunning := b }

/-- Embeds `getImportProgress` (service line 1310) returns the spread copy
`{ ...importProgressTracker }`: the caller gets the current value, and
mutations of that copy never write back to the shared tracker — which is why
`processFilesCompletion` below leaves the tracker argument unchanged. -/
def getImportProgress (t : ImportTracker) : ImportTracker :=
  t

/-- A thrown JS error, as far as `insertBatch` discriminates them. -/
inductive JsError
  | mongo (code : Int) (msg : String)
  | referenceError (ident : String)
  | rangeError (msg : String)
deriving DecidableEq, Repr

/-- JS `error.code`: only Mongo errors carry one (`undefined` otherwise). -/
def JsError.code? : JsError → Option Int
  | .mongo c _ => some c
  | _ => none

def JsError.message : JsError → String
  | .mongo _ m => m
  | .referenceError n => n ++ " is not defined"
  | .rangeError m => m

/-- The grouping key of `insertBatch` (service line 127):
`url + '_' + date.toISOString().split('T')[0]`.  `toISOString` THROWS a
RangeError on an Invalid Date; the ISO day string is represented by the epoch
day index, which corresponds to it bijectively. -/
def jsDayKey (url : String) (d : Option Int) : Except JsError String :=
  match d with
  | none => Except.error (JsError.rangeError "Invalid time value")
  | some ms => Except.ok (url ++ "_" ++ toString (ms.fdiv 86400000))

/-- Insert `d` into the ordered key groups, JS-`Map` style (first-insertion
key order, appends within a group). -/
def addToGroups (gs : List (String × List SDoc)) (k : String) (d : SDoc) :
    List (String × List SDoc) :=
  if gs.any (fun g => g.1 == k) then
    gs.map (fun g => if g.1 == k then (g.1, g.2 ++ [d]) else g)
  else gs ++ [(k, [d])]

def groupBatchAux (acc : List (String × List SDoc)) :
    List SDoc → Except JsError (List (String × List SDoc))
  | [] => Except.ok acc
  | d :: ds =>
    match jsDayKey d.url d.date with
    | Except.error e => Except.error e
    | Except.ok k => groupBatchAux (addToGroups acc k d) ds

/-- The `urlDateGroups` map of `insertBatch`'s try block (service lines
124-132). -/
def groupBatch (batch : List SDoc) : Except JsError (List (String × List SDoc)) :=
  groupBatchAux [] batch

/-- The merged update operations of `insertBatch` (service lines 134-147): one
upsert per unique url+day key, keyed by the merged document's `url`/`date`. -/
def groupOps (batch : List SDoc) : Except JsError (List (String × SDoc)) :=
  (groupBatch batch).map (List.map (fun g => (g.1, mergeRecordsForSameUrlDate g.2)))

structure InsertResult where
  upserted : Nat
  modified : Nat
deriving DecidableEq, Repr

instance {α β : Type} [DecidableEq α] [DecidableEq β] : DecidableEq (Except α β) :=
  fun x y =>
    match x, y with
    | Except.ok a, Except.ok b =>
        if h : a = b then isTrue (by rw [h]) else isFalse (by simp [h])
    | Except.error a, Except.error b =>
        if h : a = b then isTrue (by rw [h]) else isFalse (by simp [h])
    | Except.ok _, Except.error _ => isFalse (by simp)
    | Except.error _, Except.ok _ => isFalse (by simp)

/-- The outcome of the awaited `SocialScrape.bulkWrite` store call, supplied
as an oracle (the store itself is not modelled). -/
inductive BulkOutcome
  | ok (upserted modified : Nat)
  | err (e : JsError)
deriving DecidableEq, Repr

/-- JS lexical scoping of `insertBatch`: identifiers declared by `const`
inside the `try` block (service line 124 declares `urlDateGroups` there) are
visible only inside that block. -/
def insertBatchTryScope : List String :=
  ["urlDateGroups", "operations", "result"]

/-- Identifiers visible inside `insertBatch`'s catch block: the function
parameters and the catch-local bindings (service lines 169-176).  Note that
`urlDateGroups` is NOT among them. -/
def insertBatchCatchEnv : List String :=
  ["batch", "filename", "processed", "total", "error", "upserted", "modified"]

/-- The per-item fallback loop the catch block attempts to run (service lines
178-198), given an oracle for each individual `updateOne` call: counts one
`upserted`/`modified` per successful key, records failures in `errors` and
continues with the remaining keys. -/
def insertBatchFallback (groups : List (String × SDoc)) (filename : String)
    (itemOutcome : String → Except JsError InsertResult) (t : ImportTracker) :
    ImportTracker × Nat × Nat :=
  groups.foldl
    (fun st g =>
      match itemOutcome g.1 with
      | Except.ok r =>
          (st.1,
           st.2.1 + (if 0 < r.upserted then 1 else 0),
           st.2.2 + (if 0 < r.modified then 1 else 0))
      | Except.error e =>
          ({ st.1 with errors := st.1.errors ++
              [⟨filename, "Failed to insert URL+date combination " ++ g.1 ++ ": " ++ e.message⟩] },
           st.2.1, st.2.2))
    (t, 0, 0)

/-- Embeds `insertBatch` (service lines 121-219).  Groups and merges the batch by
url+day, issues the bulk upsert (outcome supplied by the `bulk` oracle), and
updates the shared tracker.  On a duplicate-key (code 11000) bulk failure the
catch block's fallback loop iterates over the identifier `urlDateGroups` — an
identifier that JS scoping does not resolve in the catch block, so the
fallback raises `ReferenceError` before performing any per-item upsert.  Any
other error is recorded in the tracker's `errors` and rethrown. -/
def insertBatch (batch : List SDoc) (filename : String) (processed : Nat)
    (t : ImportTracker) (bulk : BulkOutcome)
    (itemOutcome : String → Except JsError InsertResult) :
    ImportTracker × Except JsError InsertResult :=
  match groupOps batch with
  | Except.error e =>
      ({ t with errors := t.errors ++ [⟨filename, e.message⟩] }, Except.error e)
  | Except.ok groups =>
    match bulk with
    | BulkOutcome.ok u m =>
        ({ t with upserted := t.upserted + u, modified := t.modified + m, processed := processed },
         Except.ok ⟨u, m⟩)
    | BulkOutcome.err e =>
      if e.code? == some 11000 then
        if insertBatchCatchEnv.contains "urlDateGroups" then
          -- the intended per-item retry; dead code under JS scoping
          let (t', u, m) := insertBatchFallback groups filename itemOutcome t
          ({ t' with
              upserted := t'.upserted + u, modified := t'.modified + m
              processed := processed },
           Except.ok ⟨u, m⟩)
        else
          (t, Except.error (JsError.referenceError "urlDateGroups"))
      else
        ({ t with errors := t.errors ++ [⟨filename, e.message⟩] }, Except.error e)

/-! ## The observable states of one import run
(`processFile`, service lines 374-493; `processFiles`/`startImport`,
controller lines 10-129)

The process runs on a single-threaded event loop.  An external HTTP request
(such as a second "start import") can only be served while the pipeline is
suspended at an I/O point: awaiting a file chunk, a store round-trip, an
inter-batch delay, or the completed-file rename.  Between `processFile`
setting `isComplete = true` at the very end of a file and either the next
file's entry reset or the run's termination there is no such suspension
point, so that window is not observable.  A run is therefore modelled as the
list of tracker states at its suspension points. -/

/-- One tracker mutation between suspension points while a file streams:
rows parsed, a successful batch flush, or a recorded batch error. -/
inductive FileEvent
  | rows (n : Nat)
  | batchOk (upserted modified : Nat)
  | batchFail (e : ImportErr)
deriving DecidableEq, Repr

/-- One file of an import run: its name, the tracker mutations while it
streams, and whether its end handler completes normally (on failure the
file's promise rejects and `isComplete` is never set for it). -/
structure FileJob where
  name : String
  events : List FileEvent
  endsOk : Bool
deriving DecidableEq, Repr

def applyEvent (t : ImportTracker) : FileEvent → ImportTracker
  | FileEvent.rows n => { t with processed := t.processed + n }
  | FileEvent.batchOk u m => { t with upserted := t.upserted + u, modified := t.modified + m }
  | FileEvent.batchFail e => { t with errors := t.errors ++ [e] }

/-- The synchronous per-file reset at the top of `processFile` (service lines
384-390): counters zeroed, `currentFile` set, `isComplete` cleared.
`isRunning` is not touched anywhere inside `processFile`. -/
def fileEntry (t : ImportTracker) (f : FileJob) : ImportTracker :=
  { t with
      currentFile := some f.name, processed := 0, total := 0
      upserted := 0, modified := 0, errors := [], isComplete := false }

/-- The tracker values observable at the suspension points while `f` is being
processed: the entry state and the state after each mutation. -/
def fileStates (t : ImportTracker) (f : FileJob) : List ImportTracker :=
  f.events.scanl applyEvent (fileEntry t f)

/-- The tracker value after `processFile` finishes with `f` (service line
467 sets `isComplete = true` on the success path only). -/
def fileFinal (t : ImportTracker) (f : FileJob) : ImportTracker :=
  let t' := f.events.foldl applyEvent (fileEntry t f)
  if f.endsOk then { t' with isComplete := true } else t'

/-- All observable tracker states of a run over `files`, in order. -/
def runStates : ImportTracker → List FileJob → List ImportTracker
  | _, [] => []
  | t, f :: fs => fileStates t f ++ runStates (fileFinal t f) fs

/-- The tracker state right after `startImport` accepted: reset, then
`setImportRunning(true)` (controller lines 35-38). -/
def startState : ImportTracker :=
  setImportRunning resetImportProgress true

def importRunTrace (files : List FileJob) : List ImportTracker :=
  runStates startState files

def runFinalTracker (files : List FileJob) : ImportTracker :=
  files.foldl fileFinal startState

inductive StartResult
  | conflict
  | started
deriving DecidableEq, Repr

/-- The entry guard of `startImport` (controller lines 20-26): a 409 conflict
iff the current progress shows `isRunning && !isComplete`; otherwise a second
pipeline is started. -/
def startImportReq (t : ImportTracker) : StartResult :=
  if t.isRunning && !t.isComplete then StartResult.conflict else StartResult.started

/-- The completion epilogue of `processFiles` (controller lines 101-111): it
fetches `getImportProgress()` — a COPY — sets `isComplete = true` and
`currentFile = null` on that copy, emits the copy to observers, then clears
`isRunning` on the shared tracker.  Returns (shared tracker afterwards,
emitted snapshot). -/
def processFilesCompletion (t : ImportTracker) : ImportTracker × ImportTracker :=
  let copy := getImportProgress t
  let emitted := { copy with isComplete := true, currentFile := none }
  (setImportRunning t false, emitted)

/-- The shared tracker and emitted final snapshot after a whole run. -/
def importRunOutcome (files : List FileJob) : ImportTracker × ImportTracker :=
  processFilesCompletion (runFinalTracker files)

/-! ## The phone-update pipeline
(`processPhoneFile`, service lines 887-1169; `processPhoneBatch`, service
lines 1171-1237) -/

/-- A progress tracker of one phone-update run (the shape initialised by the
controller's `updatePhoneNumber`, controller lines 360-371). -/
structure PhoneTracker where
  currentFile : Option String
  processed : Nat
  total : Nat
  updated : Nat
  created : Nat
  errors : List String
  isComplete : Bool
  totalFiles : Nat
  completedFiles : Nat
deriving DecidableEq, Repr

/-- A stored document as the phone-update path sees it: this path reads and
writes only the `url`, `date` and `phone` fields of the collection's
documents. -/
structure StoreRec where
  url : String
  date : Option Int
  phone : List String
deriving DecidableEq, Repr

/-- JS `Set.add` on the insertion-ordered set representation. -/
def setAdd (l : List String) (x : String) : List String :=
  if l.contains x then l else l ++ [x]

/-- Embeds `urlPhoneMap.get(url).add(phone)` with JS `Map` first-insertion key
order (service lines 1019-1023). -/
def addPhone (m : List (String × List String)) (k : String) (p : String) :
    List (String × List String) :=
  if m.any (fun g => g.1 == k) then
    m.map (fun g => if g.1 == k then (g.1, setAdd g.2 p) else g)
  else m ++ [(k, [p])]

/-- Embeds `urlCountMap.set(url, (urlCountMap.get(url) || 0) + 1)` (service line
1002). -/
def bumpCount (m : List (String × Nat)) (k : String) : List (String × Nat) :=
  if m.any (fun p => p.1 == k) then
    m.map (fun p => if p.1 == k then (p.1, p.2 + 1) else p)
  else m ++ [(k, 1)]

/-- Embeds `urlCountMap.get(url) || 0`. -/
def lookupCount (m : List (String × Nat)) (k : String) : Nat :=
  ((m.find? (fun p => p.1 == k)).map Prod.snd).getD 0

/-- ASCII `toLowerCase` (the URLs handled here are ASCII domains). -/
def jsToLower (s : String) : String :=
  String.mk (s.data.map (fun c => if c.isUpper then c.toLower else c))

/-- The URL cleaning of the phone (and blacklist) row loop (service lines
989-993): the same three replaces as `trimUrl`, then `toLowerCase`. -/
def phoneCleanUrl (u : String) : String :=
  jsToLower (urlReplaceChain u)

/-- One URL's upsert inside `processPhoneBatch` (service lines 1173-1231):
cap the incoming distinct phones at 3 (recording the excess), then either
update every stored record with that url — union with its stored phones,
re-capped at 3 — or create a fresh record carrying the capped phones.  The
store collaborator is modelled as always acknowledging (the per-URL
try/catch never fires). -/
def processPhoneUrl (now : Int) (st : List StoreRec × PhoneTracker)
    (urlKey : String) (phoneSet : List String) : List StoreRec × PhoneTracker :=
  let store := st.1
  let tr0 := st.2
  let capped := if 3 < phoneSet.length then phoneSet.take 3 else phoneSet
  let tr1 :=
    if 3 < phoneSet.length then
      { tr0 with errors := tr0.errors ++ ["Limited phone numbers for URL " ++ urlKey] }
    else tr0
  let existing := store.filter (fun rec => rec.url == urlKey)
  if existing.isEmpty then
    (store ++ [⟨urlKey, some now, capped⟩], { tr1 with created := tr1.created + 1 })
  else
    (store.map (fun rec =>
        if rec.url == urlKey then
          { rec with phone := (dedupKeepFirst (rec.phone ++ capped)).take 3 }
        else rec),
     { tr1 with updated := tr1.updated + 1 })

/-- Embeds `processPhoneBatch` (service lines 1171-1237): the per-URL upserts in map
order. -/
def processPhoneBatch (m : List (String × List String)) (store : List StoreRec)
    (now : Int) (tr : PhoneTracker) : List StoreRec × PhoneTracker :=
  m.foldl (fun st g => processPhoneUrl now st g.1 g.2) (store, tr)

/-- The in-flight state of one phone file's row loop. -/
structure PhoneRunState where
  urlPhones : List (String × List String)
  urlCount : List (String × Nat)
  store : List StoreRec
  tr : PhoneTracker
deriving DecidableEq, Repr

/-- One iteration of the row loop of `processPhoneFile` (service lines
960-1040): validate the row shape, trim the three columns, keep only `[PN]`
rows, clean and validate the URL, count the URL occurrence, validate and
clean the phone, add it to the URL's phone set, and flush a batch when the
map holds `BATCH_SIZE` (1000) distinct URLs.  (Error strings are abbreviated;
only their presence matters here.) -/
def phoneRowStep (now : Int) (st : PhoneRunState) (row : List String) : PhoneRunState :=
  if row.length < 3 then
    { st with tr := { st.tr with errors := st.tr.errors ++ ["Invalid record format"] } }
  else
    let url := trimWs ((row.get? 0).getD "")
    let code := trimWs ((row.get? 1).getD "")
    let phoneData := trimWs ((row.get? 2).getD "")
    if url == "" || code == "" || phoneData == "" then
      { st with tr := { st.tr with errors := st.tr.errors ++ ["Missing required data"] } }
    else if code != "[PN]" then st
    else
      let cleanUrl := phoneCleanUrl url
      if !(isValidDomain cleanUrl) then
        { st with tr := { st.tr with errors := st.tr.errors ++ ["Invalid domain format: " ++ cleanUrl] } }
      else
        let st1 : PhoneRunState := { st with urlCount := bumpCount st.urlCount cleanUrl }
        if !(isValidPhoneNumber phoneData) then
          { st1 with tr := { st1.tr with errors := st1.tr.errors ++ ["Invalid phone number: " ++ phoneData] } }
        else
          match cleanPhoneNumber phoneData cleanUrl with
          | none =>
            { st1 with tr := { st1.tr with errors := st1.tr.errors ++ ["Failed to clean phone number: " ++ phoneData] } }
          | some cleanPhone =>
            let st2 : PhoneRunState :=
              { st1 with
                  urlPhones := addPhone st1.urlPhones cleanUrl cleanPhone
                  tr := { st1.tr with processed := st1.tr.processed + 1 } }
            if 1000 ≤ st2.urlPhones.length then
              let flushed := processPhoneBatch st2.urlPhones st2.store now st2.tr
              { st2 with urlPhones := [], store := flushed.1, tr := flushed.2 }
            else st2

/-- The end-of-stream phase of `processPhoneFile` (service lines 1042-1062):
URLs that occurred in MORE than 3 rows are dropped from the final batch (with
an error entry each); the remaining map is flushed through
`processPhoneBatch`. -/
def phoneFileEnd (now : Int) (st : PhoneRunState) : PhoneRunState :=
  let kept := st.urlPhones.filter (fun g => lookupCount st.urlCount g.1 ≤ 3)
  let tr1 := st.urlPhones.foldl
    (fun tr g =>
      if 3 < lookupCount st.urlCount g.1 then
        { tr with errors := tr.errors ++ ["Skipped URL " ++ g.1 ++ " - has more than 3 rows"] }
      else tr)
    st.tr
  let flushed := if kept.isEmpty then (st.store, tr1) else processPhoneBatch kept st.store now tr1
  { st with urlPhones := kept, store := flushed.1, tr := flushed.2 }

/-- The whole row-level effect of one phone file on the store and tracker:
fold the row loop over the parsed rows, then run the end phase. -/
def processPhoneFileModel (rows : List (List String)) (store : List StoreRec)
    (tr : PhoneTracker) (now : Int) : PhoneRunState :=
  phoneFileEnd now (rows.foldl (phoneRowStep now) ⟨[], [], store, tr⟩)

/-! ## Statement-level accessors used by the theorems below -/

/-- The twelve scalar fields of a document, as getters (the fields the merge
treats with the first-non-empty rule). -/
def scalarGetters : List (SDoc → String) :=
  [SDoc.title, SDoc.twitter, SDoc.facebook, SDoc.instagram, SDoc.linkedin, SDoc.youtube,
   SDoc.pinterest, SDoc.email, SDoc.postcode, SDoc.statusCode, SDoc.redirect_url,
   SDoc.meta_description]

/-- Two partial records sharing the identity (same url, same epoch day) but
with different timestamps within the day, each setting one distinct field. -/
def c2doc1 : SDoc := { emptySDoc "a.com" (some 100) with title := "T" }

def c2doc2 : SDoc := { emptySDoc "a.com" (some 200) with email := "E" }

attribute [ext] SDoc

/-- Is a list of counter observations monotonically non-decreasing? -/
def nondecreasingN : List Nat → Bool
  | a :: b :: rest => decide (a ≤ b) && nondecreasingN (b :: rest)
  | _ => true

/-- The upserted/modified contribution of one trace event (0 except for a
successful batch). -/
def evUpserted : FileEvent → Nat
  | FileEvent.batchOk u _ => u
  | _ => 0

def evModified : FileEvent → Nat
  | FileEvent.batchOk _ m => m
  | _ => 0

/-! # Helper lemmas -/

theorem charMatchI_slash {c : Char} (h : charMatchI '/' c = true) : c = '/' := by
  have ha : asciiUpper '/' = '/' := rfl
  simp only [charMatchI, ha, Bool.or_self, beq_iff_eq] at h
  exact h

theorem matchLitI_cons_false {p c : Char} (h : charMatchI p c = false) (ps cs : List Char) :
    matchLitI (p :: ps) (c :: cs) = false := by
  simp [matchLitI, h]

theorem matchLitI_mem_slash :
    ∀ (pat l : List Char), matchLitI pat l = true → '/' ∈ pat → '/' ∈ l := by
  intro pat
  induction pat with
  | nil => intro l _ hm; cases hm
  | cons p ps ih =>
    intro l hml hmem
    cases l with
    | nil => simp [matchLitI] at hml
    | cons c cs =>
      simp only [matchLitI, Bool.and_eq_true] at hml
      rcases List.mem_cons.mp hmem with hp | hp
      · have : c = '/' := charMatchI_slash (hp ▸ hml.1)
        exact this ▸ List.mem_cons_self c cs
      · exact List.mem_cons_of_mem _ (ih cs hml.2 hp)

theorem stripHttpL_subset (l : List Char) : stripHttpL l ⊆ l := by
  unfold stripHttpL
  split
  · exact List.drop_subset _ _
  · split
    · exact List.drop_subset _ _
    · exact fun _ h => h

theorem stripWwwL_subset (l : List Char) : stripWwwL l ⊆ l := by
  unfold stripWwwL
  split
  · exact List.drop_subset _ _
  · exact fun _ h => h

theorem stripHttpL_no_slash (r : List Char) (h : ∀ c ∈ r, (c != '/') = true) :
    stripHttpL r = r := by
  have hs : ∀ pat : List Char, '/' ∈ pat → matchLitI pat r = false := by
    intro pat hp
    cases hm : matchLitI pat r with
    | false => rfl
    | true =>
      have := matchLitI_mem_slash pat r hm hp
      have := h _ this
      simp at this
  unfold stripHttpL
  rw [hs "https://".data (by decide), hs "http://".data (by decide)]
  rfl

theorem stripHttpL_head_slash (cs : List Char) : stripHttpL ('/' :: cs) = '/' :: cs := by
  unfold stripHttpL
  rw [(rfl : "https://".data = 'h' :: "ttps://".data),
      (rfl : "http://".data = 'h' :: "ttp://".data),
      matchLitI_cons_false (by decide) _ _, matchLitI_cons_false (by decide) _ _]
  rfl

theorem stripWwwL_head_slash (cs : List Char) : stripWwwL ('/' :: cs) = '/' :: cs := by
  unfold stripWwwL
  rw [(rfl : "www.".data = 'w' :: "ww.".data), matchLitI_cons_false (by decide) _ _]
  rfl

theorem stripWwwL_of_false {r : List Char} (h : matchLitI "www.".data r = false) :
    stripWwwL r = r := by
  unfold stripWwwL
  rw [h]
  rfl

theorem collapsePathL_no_slash (r : List Char) (h : ∀ c ∈ r, (c != '/') = true) :
    collapsePathL r = r := by
  unfold collapsePathL
  rw [List.takeWhile_eq_self_iff.mpr h, List.dropWhile_eq_nil_iff.mpr h]
  simp

theorem collapsePathL_head_slash (cs : List Char) : collapsePathL ('/' :: cs) = '/' :: cs := by
  unfold collapsePathL
  simp [List.takeWhile_cons]

/-- With no line terminators around, `collapsePathL` either returns the
(non-empty) prefix before the first `/`, or the input was empty or started
with `/` and is returned whole. -/
theorem collapsePathL_of_nl (m : List Char) (hm : ∀ c ∈ m, isLineTerm c = false) :
    (m.takeWhile (· != '/') ≠ [] ∧ collapsePathL m = m.takeWhile (· != '/'))
    ∨ (collapsePathL m = m ∧ (m = [] ∨ ∃ cs, m = '/' :: cs)) := by
  have hall : (m.dropWhile (· != '/')).all (fun c => !(isLineTerm c)) = true := by
    rw [List.all_eq_true]
    intro c hc
    have := hm c (List.dropWhile_subset _ hc)
    simp [this]
  by_cases hpre : m.takeWhile (· != '/') = []
  · right
    constructor
    · unfold collapsePathL
      rw [if_neg]
      intro hcond
      exact hcond.1 hpre
    · cases m with
      | nil => exact Or.inl rfl
      | cons c cs =>
        right
        rw [List.takeWhile_cons] at hpre
        by_cases hc : (c != '/') = true
        · simp [hc] at hpre
        · have : c = '/' := by simpa using hc
          exact ⟨cs, by rw [this]⟩
  · left
    refine ⟨hpre, ?_⟩
    unfold collapsePathL
    rw [if_pos ⟨hpre, hall⟩]

theorem string_mk_ne_empty {r : List Char} (h : r ≠ []) : String.mk r ≠ "" := by
  intro hc
  exact h (by simpa using congrArg String.data hc)

theorem applyEvent_isRunning (t : ImportTracker) (e : FileEvent) :
    (applyEvent t e).isRunning = t.isRunning := by
  cases e <;> rfl

theorem applyEvent_isComplete (t : ImportTracker) (e : FileEvent) :
    (applyEvent t e).isComplete = t.isComplete := by
  cases e <;> rfl

theorem scanl_mem_invariant {α β : Type} (f : α → β → α) (P : α → Prop)
    (hf : ∀ a b, P a → P (f a b)) :
    ∀ (l : List β) (i : α), P i → ∀ s ∈ l.scanl f i, P s := by
  intro l
  induction l with
  | nil =>
    intro i hi s hs
    rw [List.scanl_nil] at hs
    rcases List.mem_singleton.mp hs with rfl
    exact hi
  | cons b bs ih =>
    intro i hi s hs
    rw [List.scanl_cons] at hs
    rcases List.mem_cons.mp hs with h | h
    · rwa [h]
    · exact ih (f i b) (hf i b hi) s h

theorem foldl_applyEvent_isRunning :
    ∀ (es : List FileEvent) (t : ImportTracker), (es.foldl applyEvent t).isRunning = t.isRunning := by
  intro es
  induction es with
  | nil => intro t; rfl
  | cons e es ih =>
    intro t
    rw [List.foldl_cons, ih, applyEvent_isRunning]

theorem fileFinal_isRunning (t : ImportTracker) (f : FileJob) :
    (fileFinal t f).isRunning = t.isRunning := by
  have h : (f.events.foldl applyEvent (fileEntry t f)).isRunning = t.isRunning := by
    rw [foldl_applyEvent_isRunning]
    rfl
  unfold fileFinal
  by_cases hok : f.endsOk = true <;> simp [hok, h]

/-- Every state observable during a run keeps `isRunning = true` and
`isComplete = false` (between files the `isComplete = true` instant is not
separated from the next reset by any suspension point). -/
theorem runStates_flags :
    ∀ (files : List FileJob) (t : ImportTracker), t.isRunning = true →
      ∀ s ∈ runStates t files, s.isRunning = true ∧ s.isComplete = false := by
  intro files
  induction files with
  | nil =>
    intro t _ s hs
    simp [runStates] at hs
  | cons f fs ih =>
    intro t ht s hs
    rw [runStates] at hs
    rcases List.mem_append.mp hs with h | h
    · refine scanl_mem_invariant applyEvent
        (fun x => x.isRunning = true ∧ x.isComplete = false) ?_ f.events (fileEntry t f) ?_ s h
      · intro a b hab
        rw [applyEvent_isRunning, applyEvent_isComplete]
        exact hab
      · exact ⟨ht, rfl⟩
    · exact ih (fileFinal t f) (by rw [fileFinal_isRunning]; exact ht) s h

theorem contains_eq_decide_mem (l : List String) (x : String) :
    l.contains x = decide (x ∈ l) := List.elem_eq_mem x l

theorem dedupSeen_congr :
    ∀ (l seen1 seen2 : List String), (∀ y, y ∈ seen1 ↔ y ∈ seen2) →
      dedupSeen seen1 l = dedupSeen seen2 l := by
  intro l
  induction l with
  | nil => intro _ _ _; rfl
  | cons x xs ih =>
    intro seen1 seen2 hmem
    unfold dedupSeen
    have hc : seen1.contains x = seen2.contains x := by
      rw [contains_eq_decide_mem, contains_eq_decide_mem]
      exact decide_eq_decide.mpr (hmem x)
    rw [hc]
    cases hb : seen2.contains x with
    | true => simp only [if_true]; exact ih seen1 seen2 hmem
    | false =>
      simp only [Bool.false_eq_true, if_false]
      have : dedupSeen (x :: seen1) xs = dedupSeen (x :: seen2) xs := by
        apply ih
        intro y
        simp [hmem y]
      rw [this]

theorem dedupSeen_idem_append :
    ∀ (a b seen : List String),
      dedupSeen seen (dedupSeen seen a ++ b) = dedupSeen seen (a ++ b) := by
  intro a
  induction a with
  | nil => intro b seen; rfl
  | cons x xs ih =>
    intro b seen
    show dedupSeen seen ((if seen.contains x then dedupSeen seen xs
        else x :: dedupSeen (x :: seen) xs) ++ b)
      = dedupSeen seen ((x :: xs) ++ b)
    cases hb : seen.contains x with
    | true =>
      simp only [if_true]
      rw [ih b seen]
      show dedupSeen seen (xs ++ b) = dedupSeen seen (x :: (xs ++ b))
      show dedupSeen seen (xs ++ b)
        = if seen.contains x then dedupSeen seen (xs ++ b)
          else x :: dedupSeen (x :: seen) (xs ++ b)
      rw [hb]
      rfl
    | false =>
      simp only [Bool.false_eq_true, if_false, List.cons_append]
      show (if seen.contains x then dedupSeen seen (dedupSeen (x :: seen) xs ++ b)
          else x :: dedupSeen (x :: seen) (dedupSeen (x :: seen) xs ++ b))
        = dedupSeen seen (x :: (xs ++ b))
      rw [hb]
      show x :: dedupSeen (x :: seen) (dedupSeen (x :: seen) xs ++ b)
        = dedupSeen seen (x :: (xs ++ b))
      rw [ih b (x :: seen)]
      show _ = if seen.contains x then dedupSeen seen (xs ++ b)
          else x :: dedupSeen (x :: seen) (xs ++ b)
      rw [hb]
      simp

theorem dedup_append_dedup (a b : List String) :
    dedupKeepFirst (dedupKeepFirst a ++ b) = dedupKeepFirst (a ++ b) :=
  dedupSeen_idem_append a b []

theorem firstNonEmpty_cons (x : String) (xs : List String) :
    firstNonEmpty (x :: xs) = if x = "" then firstNonEmpty xs else x := by
  by_cases h : x = ""
  · simp [firstNonEmpty, List.find?_cons, h]
  · simp [firstNonEmpty, List.find?_cons, h]

theorem firstNonEmpty_head_filter :
    ∀ (l : List String), firstNonEmpty l = (l.filter (· != "")).headD "" := by
  intro l
  induction l with
  | nil => rfl
  | cons x xs ih =>
    rw [firstNonEmpty_cons, List.filter_cons]
    by_cases h : x = ""
    · simp [h, ih]
    · simp [h]

theorem perm_eq_of_length_le_one {α : Type} :
    ∀ {l1 l2 : List α}, l1.Perm l2 → l1.length ≤ 1 → l1 = l2 := by
  intro l1 l2 hp h
  cases l1 with
  | nil => exact hp.nil_eq
  | cons x xs =>
    cases xs with
    | nil =>
      cases l2 with
      | nil => exact absurd hp.length_eq (by simp)
      | cons y ys =>
        cases ys with
        | nil =>
          have : x = y := by
            have hx : x ∈ [y] := hp.mem_iff.mp (List.mem_singleton_self x)
            simpa using hx
          rw [this]
        | cons z zs => exact absurd hp.length_eq (by simp)
    | cons y ys => simp at h

theorem firstNonEmpty_perm (l l' : List String) (hp : l.Perm l')
    (h1 : (l.filter (· != "")).length ≤ 1) :
    firstNonEmpty l = firstNonEmpty l' := by
  rw [firstNonEmpty_head_filter, firstNonEmpty_head_filter,
      perm_eq_of_length_le_one (hp.filter _) h1]

theorem flatten_filter_ne_nil :
    ∀ (L : List (List String)), (L.filter (fun x => !x.isEmpty)).flatten = L.flatten := by
  intro L
  induction L with
  | nil => rfl
  | cons x xs ih =>
    rw [List.filter_cons]
    cases x with
    | nil => simpa using ih
    | cons c cs => simpa using ih

theorem flatten_perm_le_one (L L' : List (List String)) (hp : L.Perm L')
    (h1 : (L.filter (fun x => !x.isEmpty)).length ≤ 1) :
    L.flatten = L'.flatten := by
  rw [← flatten_filter_ne_nil L, ← flatten_filter_ne_nil L',
      perm_eq_of_length_le_one (hp.filter _) h1]

theorem emptySDoc_getter (g : SDoc → String) (hg : g ∈ scalarGetters)
    (u : String) (dt : Option Int) : g (emptySDoc u dt) = "" := by
  simp only [scalarGetters, List.mem_cons, List.not_mem_nil, or_false] at hg
  rcases hg with rfl | rfl | rfl | rfl | rfl | rfl | rfl | rfl | rfl | rfl | rfl | rfl <;> rfl

theorem mergeStep_getter (g : SDoc → String) (hg : g ∈ scalarGetters) (m d : SDoc) :
    g (mergeStep m d) = if g d ≠ "" ∧ g m = "" then g d else g m := by
  simp only [scalarGetters, List.mem_cons, List.not_mem_nil, or_false] at hg
  rcases hg with rfl | rfl | rfl | rfl | rfl | rfl | rfl | rfl | rfl | rfl | rfl | rfl <;> rfl

theorem foldl_mergeStep_getter (g : SDoc → String) (hg : g ∈ scalarGetters) :
    ∀ (l : List SDoc) (m : SDoc),
      g (l.foldl mergeStep m) = if g m = "" then firstNonEmpty (l.map g) else g m := by
  intro l
  induction l with
  | nil =>
    intro m
    by_cases h : g m = "" <;> simp [h, firstNonEmpty]
  | cons d ds ih =>
    intro m
    rw [List.foldl_cons, ih, mergeStep_getter g hg, List.map_cons, firstNonEmpty_cons]
    by_cases hm : g m = ""
    · by_cases hd : g d = ""
      · simp [hm, hd]
      · simp [hm, hd]
    · simp [hm]

theorem mergeStep_url (m d : SDoc) : (mergeStep m d).url = m.url := rfl

theorem mergeStep_date (m d : SDoc) : (mergeStep m d).date = m.date := rfl

theorem foldl_mergeStep_url :
    ∀ (l : List SDoc) (m : SDoc), (l.foldl mergeStep m).url = m.url := by
  intro l
  induction l with
  | nil => intro m; rfl
  | cons d ds ih =>
    intro m
    rw [List.foldl_cons, ih, mergeStep_url]

theorem foldl_mergeStep_date :
    ∀ (l : List SDoc) (m : SDoc), (l.foldl mergeStep m).date = m.date := by
  intro l
  induction l with
  | nil => intro m; rfl
  | cons d ds ih =>
    intro m
    rw [List.foldl_cons, ih, mergeStep_date]

theorem foldl_mergeStep_phone :
    ∀ (l : List SDoc) (a : List String) (m : SDoc), m.phone = dedupKeepFirst a →
      (l.foldl mergeStep m).phone = dedupKeepFirst (a ++ (l.map SDoc.phone).flatten) := by
  intro l
  induction l with
  | nil =>
    intro a m hm
    simpa using hm
  | cons d ds ih =>
    intro a m hm
    rw [List.foldl_cons]
    have hstep : (mergeStep m d).phone = dedupKeepFirst (a ++ d.phone) := by
      show dedupKeepFirst (m.phone ++ d.phone) = _
      rw [hm, dedup_append_dedup]
    rw [ih (a ++ d.phone) _ hstep]
    simp

theorem merge_getter (g : SDoc → String) (hg : g ∈ scalarGetters) :
    ∀ (docs : List SDoc), docs ≠ [] →
      g (mergeRecordsForSameUrlDate docs) = firstNonEmpty (docs.map g) := by
  intro docs hne
  match docs with
  | [d] =>
    show g d = firstNonEmpty [g d]
    rw [firstNonEmpty_cons]
    by_cases h : g d = "" <;> simp [h, firstNonEmpty]
  | d1 :: d2 :: rest =>
    show g ((d1 :: d2 :: rest).foldl mergeStep (emptySDoc d1.url d1.date)) = _
    rw [foldl_mergeStep_getter g hg, emptySDoc_getter g hg]
    simp

theorem merge_url_of (u : String) :
    ∀ (docs : List SDoc), docs ≠ [] → (∀ d ∈ docs, d.url = u) →
      (mergeRecordsForSameUrlDate docs).url = u := by
  intro docs hne hu
  match docs with
  | [d] => exact hu d (List.mem_singleton_self d)
  | d1 :: d2 :: rest =>
    show ((d1 :: d2 :: rest).foldl mergeStep (emptySDoc d1.url d1.date)).url = u
    rw [foldl_mergeStep_url]
    exact hu d1 (List.mem_cons_self d1 _)

theorem merge_date_of (dt : Option Int) :
    ∀ (docs : List SDoc), docs ≠ [] → (∀ d ∈ docs, d.date = dt) →
      (mergeRecordsForSameUrlDate docs).date = dt := by
  intro docs hne hdt
  match docs with
  | [d] => exact hdt d (List.mem_singleton_self d)
  | d1 :: d2 :: rest =>
    show ((d1 :: d2 :: rest).foldl mergeStep (emptySDoc d1.url d1.date)).date = dt
    rw [foldl_mergeStep_date]
    exact hdt d1 (List.mem_cons_self d1 _)

theorem merge_phone_two (d1 d2 : SDoc) (rest : List SDoc) :
    (mergeRecordsForSameUrlDate (d1 :: d2 :: rest)).phone
      = dedupKeepFirst (((d1 :: d2 :: rest).map SDoc.phone).flatten) := by
  show ((d1 :: d2 :: rest).foldl mergeStep (emptySDoc d1.url d1.date)).phone = _
  rw [foldl_mergeStep_phone _ [] _ rfl]
  simp

theorem cleanPhone_url_any (p u : String) :
    cleanPhoneNumber p u = cleanPhoneNumber p "" := rfl

theorem isValid_nonempty {p : String} (h : isValidPhoneNumber p = true) : p ≠ "" := by
  intro hp
  rw [hp] at h
  exact absurd h (by decide)

theorem isValid_clean_isSome {p : String} (h : isValidPhoneNumber p = true) :
    (cleanPhoneNumber p "").isSome = true := by
  unfold isValidPhoneNumber at h
  by_cases hp : p = ""
  · rw [if_pos hp] at h
    exact absurd h (by simp)
  · rw [if_neg hp] at h
    cases hcc : cleanPhoneNumber p "" with
    | none =>
      rw [hcc] at h
      exact absurd h (by simp)
    | some c => simp

theorem dedupSeen_length_le :
    ∀ (l seen : List String), (dedupSeen seen l).length ≤ l.length := by
  intro l
  induction l with
  | nil => intro seen; simp [dedupSeen]
  | cons x xs ih =>
    intro seen
    unfold dedupSeen
    cases hb : seen.contains x with
    | true =>
      simp only [if_true]
      exact Nat.le_succ_of_le (ih seen)
    | false =>
      simp only [Bool.false_eq_true, if_false, List.length_cons]
      exact Nat.succ_le_succ (ih (x :: seen))

theorem dedup_length_le (l : List String) : (dedupKeepFirst l).length ≤ l.length :=
  dedupSeen_length_le l []

theorem setAdd_ne_nil (l : List String) (x : String) : setAdd l x ≠ [] := by
  unfold setAdd
  cases hb : l.contains x with
  | true =>
    simp only [if_true]
    intro h
    rw [h, contains_eq_decide_mem] at hb
    simp at hb
  | false => simp

theorem foldl_setAdd_dedup :
    ∀ (l acc : List String), List.foldl setAdd acc l = acc ++ dedupSeen acc l := by
  intro l
  induction l with
  | nil => intro acc; simp [dedupSeen]
  | cons x xs ih =>
    intro acc
    rw [List.foldl_cons, ih]
    have hd : dedupSeen acc (x :: xs)
        = if acc.contains x then dedupSeen acc xs else x :: dedupSeen (x :: acc) xs := rfl
    have hs : setAdd acc x = if acc.contains x then acc else acc ++ [x] := rfl
    rw [hd, hs]
    cases hb : acc.contains x with
    | true => simp
    | false =>
      simp only [Bool.false_eq_true, if_false]
      have hcongr : dedupSeen (acc ++ [x]) xs = dedupSeen (x :: acc) xs := by
        apply dedupSeen_congr
        intro y
        constructor
        · intro hy
          rcases List.mem_append.mp hy with hy | hy
          · exact List.mem_cons_of_mem _ hy
          · rcases List.mem_singleton.mp hy with rfl
            exact List.mem_cons_self _ _
        · intro hy
          rcases List.mem_cons.mp hy with rfl | hy
          · exact List.mem_append.mpr (Or.inr (List.mem_singleton_self _))
          · exact List.mem_append.mpr (Or.inl hy)
      rw [hcongr]
      simp

theorem foldl_setAdd_eq_dedup (l : List String) :
    List.foldl setAdd [] l = dedupKeepFirst l := by
  rw [foldl_setAdd_dedup]
  rfl

theorem foldl_setAdd_clean (cl : String → String) :
    ∀ (l : List String) (acc : List String),
      List.foldl (fun a q => setAdd a (cl q)) acc l = List.foldl setAdd acc (l.map cl) := by
  intro l
  induction l with
  | nil => intro acc; rfl
  | cons x xs ih =>
    intro acc
    rw [List.map_cons, List.foldl_cons, List.foldl_cons, ih]

theorem addPhone_length_le (m : List (String × List String)) (k : String) (x : String) :
    (addPhone m k x).length ≤ m.length + 1 := by
  unfold addPhone
  cases hb : m.any (fun g => g.1 == k) with
  | true => simp
  | false => simp

theorem phoneRowStep_valid (now : Int) (u p : String) (st : PhoneRunState)
    (hu0 : trimWs u ≠ "")
    (hdom : isValidDomain (phoneCleanUrl (trimWs u)) = true)
    (hp : isValidPhoneNumber (trimWs p) = true)
    (hsize : st.urlPhones.length < 999) :
    phoneRowStep now st [u, "[PN]", p]
      = { st with
          urlPhones := addPhone st.urlPhones (phoneCleanUrl (trimWs u))
            ((cleanPhoneNumber (trimWs p) (phoneCleanUrl (trimWs u))).getD "")
          urlCount := bumpCount st.urlCount (phoneCleanUrl (trimWs u))
          tr := { st.tr with processed := st.tr.processed + 1 } } := by
  obtain ⟨c, hc⟩ := Option.isSome_iff_exists.mp (isValid_clean_isSome hp)
  have hc' : cleanPhoneNumber (trimWs p) (phoneCleanUrl (trimWs u)) = some c := by
    rw [cleanPhone_url_any]
    exact hc
  have h1 : (trimWs u == "") = false := beq_eq_false_iff_ne.mpr hu0
  have h3 : (trimWs p == "") = false := beq_eq_false_iff_ne.mpr (isValid_nonempty hp)
  have h4 : ¬(1000 ≤ (addPhone st.urlPhones (phoneCleanUrl (trimWs u)) c).length) := by
    have := addPhone_length_le st.urlPhones (phoneCleanUrl (trimWs u)) c
    omega
  unfold phoneRowStep
  simp only [List.length_cons, List.length_nil, List.get?, Option.getD_some]
  rw [if_neg (by omega)]
  simp only [h1, h3, Bool.false_or, Bool.or_false]
  rw [if_neg (by decide)]
  rw [if_neg (by decide)]
  simp only [hdom, Bool.not_true]
  rw [if_neg (by simp)]
  simp only [hp, Bool.not_true]
  rw [if_neg (by simp)]
  rw [hc']
  simp only [Option.getD_some]
  rw [if_neg h4]

theorem phoneRows_single_fold (now : Int) (u : String)
    (hu0 : trimWs u ≠ "")
    (hdom : isValidDomain (phoneCleanUrl (trimWs u)) = true) :
    ∀ (ps : List String), (∀ p ∈ ps, isValidPhoneNumber (trimWs p) = true) →
      ∀ (acc : List String) (k : Nat) (store : List StoreRec) (tr : PhoneTracker),
        (ps.map (fun p => [u, "[PN]", p])).foldl (phoneRowStep now)
            ⟨[(phoneCleanUrl (trimWs u), acc)], [(phoneCleanUrl (trimWs u), k)], store, tr⟩
          = ⟨[(phoneCleanUrl (trimWs u),
                ps.foldl (fun a q =>
                  setAdd a ((cleanPhoneNumber (trimWs q) (phoneCleanUrl (trimWs u))).getD "")) acc)],
              [(phoneCleanUrl (trimWs u), k + ps.length)], store,
              { tr with processed := tr.processed + ps.length }⟩ := by
  intro ps
  induction ps with
  | nil =>
    intro _ acc k store tr
    simp
  | cons q qs ih =>
    intro hv acc k store tr
    rw [List.map_cons, List.foldl_cons,
        phoneRowStep_valid now u q _ hu0 hdom (hv q (List.mem_cons_self q qs)) (by simp)]
    have haddPhone :
        addPhone [(phoneCleanUrl (trimWs u), acc)] (phoneCleanUrl (trimWs u))
            ((cleanPhoneNumber (trimWs q) (phoneCleanUrl (trimWs u))).getD "")
          = [(phoneCleanUrl (trimWs u),
              setAdd acc ((cleanPhoneNumber (trimWs q) (phoneCleanUrl (trimWs u))).getD ""))] := by
      simp [addPhone]
    have hbump :
        bumpCount [(phoneCleanUrl (trimWs u), k)] (phoneCleanUrl (trimWs u))
          = [(phoneCleanUrl (trimWs u), k + 1)] := by
      simp [bumpCount]
    show (qs.map (fun p => [u, "[PN]", p])).foldl (phoneRowStep now)
        ⟨addPhone [(phoneCleanUrl (trimWs u), acc)] (phoneCleanUrl (trimWs u))
            ((cleanPhoneNumber (trimWs q) (phoneCleanUrl (trimWs u))).getD ""),
          bumpCount [(phoneCleanUrl (trimWs u), k)] (phoneCleanUrl (trimWs u)),
          store, { tr with processed := tr.processed + 1 }⟩ = _
    rw [haddPhone, hbump,
        ih (fun p hp => hv p (List.mem_cons_of_mem q hp)) _ (k + 1) store
          { tr with processed := tr.processed + 1 }]
    simp [List.foldl_cons]
    omega

theorem processPhoneUrl_create (now : Int) (cu : String) (D : List String)
    (store : List StoreRec) (tr : PhoneTracker) (hD3 : D.length ≤ 3)
    (hfil : store.filter (fun rec => rec.url == cu) = []) :
    processPhoneUrl now (store, tr) cu D
      = (store ++ [⟨cu, some now, D⟩], { tr with created := tr.created + 1 }) := by
  unfold processPhoneUrl
  simp only [if_neg (show ¬ 3 < D.length by omega)]
  simp only [hfil, List.isEmpty_nil, if_true]

theorem phoneFileEnd_single (now : Int) (cu : String) (D : List String) (n : Nat)
    (store : List StoreRec) (tr : PhoneTracker)
    (hn : n ≤ 3) (hD3 : D.length ≤ 3)
    (hstore : ∀ rec ∈ store, (rec.url == cu) = false) :
    (phoneFileEnd now ⟨[(cu, D)], [(cu, n)], store, tr⟩).store
      = store ++ [⟨cu, some now, D⟩] := by
  have hlk : lookupCount [(cu, n)] cu = n := by
    simp [lookupCount, List.find?_cons]
  have hcond : decide (lookupCount [(cu, n)] cu ≤ 3) = true := by
    rw [hlk]
    exact decide_eq_true hn
  have hfil : store.filter (fun rec => rec.url == cu) = [] := by
    rw [List.filter_eq_nil_iff]
    intro a ha
    simp [hstore a ha]
  have hnot : ¬ 3 < lookupCount [(cu, n)] cu := by
    rw [hlk]
    omega
  unfold phoneFileEnd
  simp only [List.filter_cons, List.filter_nil, hcond, if_true, List.foldl_cons, List.foldl_nil,
    if_neg hnot]
  rw [if_neg (show ¬([((cu : String), D)].isEmpty = true) by simp)]
  show (processPhoneBatch [(cu, D)] store now tr).1 = store ++ [⟨cu, some now, D⟩]
  show (processPhoneUrl now (store, tr) cu D).1 = _
  rw [processPhoneUrl_create now cu D store tr hD3 hfil]

/-! # Claim theorems -/

/-- Claim C7, counterexample: `trimUrl` is NOT idempotent.  On
`"www.www.foo.com"` one application strips a single `www.` yielding
`"www.foo.com"`, and a second application strips again, yielding
`"foo.com"`. -/
theorem trimUrl_not_idempotent_counterexample :
    trimUrl (trimUrl "www.www.foo.com") ≠ trimUrl "www.www.foo.com"
    ∧ trimUrl "www.www.foo.com" = "www.foo.com"
    ∧ trimUrl (trimUrl "www.www.foo.com") = "foo.com" :=
  ⟨by decide, by decide, by decide⟩

/-- Claim C7, amended: `trimUrl` returns the empty string on empty input, and
applying it twice equals applying it once for every input without line
terminators whose once-applied result does not itself begin
(case-insensitively) with `www.` — the restriction the counterexample
`"www.www.foo.com"` forces. -/
theorem trimUrl_idempotent_amended (s : String)
    (hnl : ∀ c ∈ s.data, isLineTerm c = false)
    (hw : startsWithWwwI (trimUrl s) = false) :
    trimUrl (trimUrl s) = trimUrl s ∧ trimUrl "" = "" := by
  refine ⟨?_, rfl⟩
  by_cases hs : s = ""
  · rw [hs]
    rfl
  · have htr : trimUrl s = String.mk (collapsePathL (stripWwwL (stripHttpL s.data))) := by
      unfold trimUrl urlReplaceChain urlReplaceChainL
      rw [if_neg hs]
    set m := stripWwwL (stripHttpL s.data) with hm
    have hm_nl : ∀ c ∈ m, isLineTerm c = false := fun c hc =>
      hnl c (stripHttpL_subset _ (stripWwwL_subset _ hc))
    rcases collapsePathL_of_nl m hm_nl with ⟨hne, heq⟩ | ⟨heq, hshape⟩
    · set r := m.takeWhile (· != '/') with hr
      have hr_ns : ∀ c ∈ r, (c != '/') = true := fun c hc => by
        simpa using List.mem_takeWhile_imp hc
      have htr' : trimUrl s = String.mk r := by rw [htr, heq]
      rw [htr']
      have hmkne : String.mk r ≠ "" := string_mk_ne_empty hne
      have hw' : matchLitI "www.".data r = false := by
        have hw2 := hw
        rw [htr'] at hw2
        simpa [startsWithWwwI] using hw2
      unfold trimUrl urlReplaceChain urlReplaceChainL
      rw [if_neg hmkne]
      show String.mk (collapsePathL (stripWwwL (stripHttpL r))) = String.mk r
      rw [stripHttpL_no_slash r hr_ns, stripWwwL_of_false hw', collapsePathL_no_slash r hr_ns]
    · have htr' : trimUrl s = String.mk m := by rw [htr, heq]
      rw [htr']
      rcases hshape with hnil | ⟨cs, hcons⟩
      · rw [hnil]
        rfl
      · rw [hcons]
        have hmkne : String.mk ('/' :: cs) ≠ "" := string_mk_ne_empty (by simp)
        unfold trimUrl urlReplaceChain urlReplaceChainL
        rw [if_neg hmkne]
        show String.mk (collapsePathL (stripWwwL (stripHttpL ('/' :: cs)))) = _
        rw [stripHttpL_head_slash, stripWwwL_head_slash, collapsePathL_head_slash]

/-- Claim C7, witness for the amended theorem at a concrete input. -/
theorem trimUrl_idempotent_amended_witness :
    trimUrl (trimUrl "http://www.Example.com/path") = trimUrl "http://www.Example.com/path"
    ∧ trimUrl "" = "" :=
  trimUrl_idempotent_amended "http://www.Example.com/path" (by decide) (by decide)

/-- Claim C8, counterexample: `cleanPhoneNumber("07508770171")` does NOT gain
the `[+44]` prefix as the spec's vector states.  No calling code in the table
can match a leading `0`, so the fallback keeps the bare 11-digit string. -/
theorem cleanPhone_ukvector_counterexample :
    cleanPhoneNumber "07508770171" "" ≠ some "[+44] 7508770171"
    ∧ cleanPhoneNumber "07508770171" "" = some "07508770171" :=
  ⟨by decide, by decide⟩

/-- Claim C8, amended: the first vector holds as stated,
`cleanPhoneNumber("+44535931969") = "[+44] 0535931969"` (9 digits after +44,
one short of the UK's 10, so a leading 0 is prepended); the second vector
instead yields the bare digits `"07508770171"` (11 digits, no matching
calling code), with no `[+44]` prefix added. -/
theorem cleanPhone_vectors_amended :
    cleanPhoneNumber "+44535931969" "" = some "[+44] 0535931969"
    ∧ cleanPhoneNumber "07508770171" "" = some "07508770171" :=
  ⟨by decide, by decide⟩

/-- Claim C10: the result of phone cleaning/formatting is independent of the
URL hint — the `isUKDomain` flag computed inside `formatPhoneWithCountryCode`
never influences the returned value — and `isValidPhoneNumber`, which takes
only the phone string, cleans with the default empty URL. -/
theorem cleanPhoneNumber_url_independent :
    ∀ (p u1 u2 : String),
      cleanPhoneNumber p u1 = cleanPhoneNumber p u2
      ∧ formatPhoneWithCountryCode p u1 = formatPhoneWithCountryCode p u2 :=
  fun _ _ _ => ⟨rfl, rfl⟩

set_option maxHeartbeats 1000000 in
/-- Claim C5, counterexample: a row with no `DATE` column (and one with an
unparsable one) is kept by `processRecord`, but its `date` is the JS Invalid
Date (`none`) — not the current ingestion time, which would be a real
timestamp. -/
theorem processRecord_invalidDate_counterexample :
    (processRecord [("URL", "example.com"), ("CODE", "[TI]"), ("RESULT", "Hello")]).isSome = true
    ∧ ((processRecord [("URL", "example.com"), ("CODE", "[TI]"), ("RESULT", "Hello")]).bind
        SDoc.date) = none
    ∧ (processRecord
        [("URL", "example.com"), ("CODE", "[TI]"), ("RESULT", "Hello"), ("DATE", "31/02/2024")]).isSome
        = true
    ∧ ((processRecord
        [("URL", "example.com"), ("CODE", "[TI]"), ("RESULT", "Hello"), ("DATE", "31/02/2024")]).bind
        SDoc.date) = none :=
  ⟨by decide, by decide, by decide, by decide⟩

/-- Claim C5, amended: a row whose `DATE` is missing or unparsable is still
returned (not rejected), but its `date` field is the Invalid Date — the
unusable `new Date(undefined)`/`new Date(<garbage>)` value — rather than the
ingestion time. -/
theorem processRecord_invalidDate_amended (r : CsvRow)
    (hdom : isValidDomain (rowFirstVal r) = true)
    (hkeep : ((rowGet r "RESULT" == some "Fetch error or no data found"
        || rowGet r "RESULT" == some "not required") && !(hasOtherData r)) = false)
    (hdate : jsParseDMY (rowGet r "DATE") = none) :
    ∃ rec, processRecord r = some rec ∧ rec.date = none := by
  refine ⟨applyCode (emptySDoc (trimUrl (rowFirstVal r)) (jsParseDMY (rowGet r "DATE")))
    ((rowGet r "RESULT").getD "") (rowGet r "CODE"), ?_, ?_⟩
  · simp [processRecord, hdom, hkeep]
  · have hd : ∀ (base : SDoc) (res : String) (c : Option String),
        (applyCode base res c).date = base.date := by
      intro base res c
      simp [applyCode, apply_ite SDoc.date]
    rw [hd]
    exact hdate

/-- Claim C5, witness for the amended theorem at a concrete row. -/
theorem processRecord_invalidDate_amended_witness :
    ∃ rec,
      processRecord [("URL", "example.com"), ("CODE", "[EM]"), ("RESULT", "a@b.c")] = some rec
      ∧ rec.date = none :=
  processRecord_invalidDate_amended
    [("URL", "example.com"), ("CODE", "[EM]"), ("RESULT", "a@b.c")]
    (by decide) (by decide) (by decide)

/-- Claim C6 (code bug): after a successful one-file run, the shared import
tracker observable through `getImportProgress` has `isComplete = true` (set by
`processFile`) but `currentFile` still holds the last filename — the
`progress.currentFile = null` assignment of `processFiles` mutates the COPY
returned by `getImportProgress`, not the shared tracker.  The final emitted
snapshot does carry `isComplete = true` and `currentFile = null`. -/
theorem processFiles_completion_currentFile_bug :
    (getImportProgress (importRunOutcome [⟨"a.csv", [FileEvent.batchOk 1 0], true⟩]).1).isComplete
        = true
    ∧ (getImportProgress (importRunOutcome [⟨"a.csv", [FileEvent.batchOk 1 0], true⟩]).1).currentFile
        = some "a.csv"
    ∧ (importRunOutcome [⟨"a.csv", [FileEvent.batchOk 1 0], true⟩]).2.isComplete = true
    ∧ (importRunOutcome [⟨"a.csv", [FileEvent.batchOk 1 0], true⟩]).2.currentFile = none :=
  ⟨by decide, by decide, by decide, by decide⟩

/-- Claim C1 (code bug): whenever the bulk upsert fails with the
duplicate-key code 11000, the catch block's per-item fallback dereferences
`urlDateGroups` — declared by `const` inside the `try` block and hence out of
scope — so the fallback itself throws a `ReferenceError` before issuing any
per-item upsert, leaving the tracker untouched. -/
theorem insertBatch_dupkey_fallback_throws (batch : List SDoc) (filename : String)
    (processed : Nat) (t : ImportTracker) (e : JsError)
    (item : String → Except JsError InsertResult) (groups : List (String × SDoc))
    (hcode : e.code? = some 11000)
    (hgroups : groupOps batch = Except.ok groups) :
    insertBatch batch filename processed t (BulkOutcome.err e) item
      = (t, Except.error (JsError.referenceError "urlDateGroups")) := by
  unfold insertBatch
  rw [hgroups]
  have hbeq : (e.code? == some 11000) = true := by rw [hcode]; rfl
  simp [hbeq]
  decide

/-- Claim C2, counterexample: two records sharing the identity key (same url,
same epoch day) that each set a different scalar field do NOT merge to the
same final document under re-ordering — the merged `date` is copied from the
first record, and the two records carry different timestamps within the day. -/
theorem mergeRecords_reorder_counterexample :
    c2doc1.url = c2doc2.url
    ∧ c2doc1.date.map (fun ms => ms.fdiv 86400000)
        = c2doc2.date.map (fun ms => ms.fdiv 86400000)
    ∧ (c2doc1.title ≠ "" ∧ c2doc1.email = "" ∧ c2doc2.email ≠ "" ∧ c2doc2.title = "")
    ∧ mergeRecordsForSameUrlDate [c2doc1, c2doc2]
        ≠ mergeRecordsForSameUrlDate [c2doc2, c2doc1]
    ∧ (mergeRecordsForSameUrlDate [c2doc1, c2doc2]).date = some 100
    ∧ (mergeRecordsForSameUrlDate [c2doc2, c2doc1]).date = some 200 :=
  ⟨by decide, by decide, by decide, by decide, by decide, by decide⟩

/-- Claim C2, amended: (1) each merged scalar field equals the first
non-empty value in arrival order; (2) re-ordering records that each set a
different field yields the same final document PROVIDED the records also
share the same date timestamp (the code copies `docs[0].date`, so only the
equal-timestamp case is order-independent — see the counterexample); (3) for
records setting the same field, the earliest-arriving non-empty value wins. -/
theorem mergeRecords_amended :
    (∀ (docs : List SDoc) (g : SDoc → String), docs ≠ [] → g ∈ scalarGetters →
        g (mergeRecordsForSameUrlDate docs) = firstNonEmpty (docs.map g))
    ∧ (∀ (u : String) (dt : Option Int) (docs docs' : List SDoc),
        docs.Perm docs' → docs ≠ [] →
        (∀ d ∈ docs, d.url = u ∧ d.date = dt) →
        (∀ g ∈ scalarGetters, ((docs.map g).filter (· != "")).length ≤ 1) →
        ((docs.map SDoc.phone).filter (fun x => !x.isEmpty)).length ≤ 1 →
        mergeRecordsForSameUrlDate docs = mergeRecordsForSameUrlDate docs')
    ∧ (∀ (d1 d2 : SDoc) (g : SDoc → String), g ∈ scalarGetters → g d1 ≠ "" →
        g (mergeRecordsForSameUrlDate [d1, d2]) = g d1) := by
  refine ⟨?_, ?_, ?_⟩
  · intro docs g hne hg
    exact merge_getter g hg docs hne
  · intro u dt docs docs' hp hne hud h1 hph
    have hne' : docs' ≠ [] := by
      intro h
      rw [h] at hp
      exact hne hp.eq_nil
    have hud' : ∀ d ∈ docs', d.url = u ∧ d.date = dt := fun d hd =>
      hud d (hp.mem_iff.mpr hd)
    have hsc : ∀ g ∈ scalarGetters,
        g (mergeRecordsForSameUrlDate docs) = g (mergeRecordsForSameUrlDate docs') := by
      intro g hg
      rw [merge_getter g hg docs hne, merge_getter g hg docs' hne']
      exact firstNonEmpty_perm _ _ (hp.map g) (h1 g hg)
    have hurl : (mergeRecordsForSameUrlDate docs).url = (mergeRecordsForSameUrlDate docs').url := by
      rw [merge_url_of u docs hne (fun d hd => (hud d hd).1),
          merge_url_of u docs' hne' (fun d hd => (hud' d hd).1)]
    have hdate : (mergeRecordsForSameUrlDate docs).date
        = (mergeRecordsForSameUrlDate docs').date := by
      rw [merge_date_of dt docs hne (fun d hd => (hud d hd).2),
          merge_date_of dt docs' hne' (fun d hd => (hud' d hd).2)]
    have hphone : (mergeRecordsForSameUrlDate docs).phone
        = (mergeRecordsForSameUrlDate docs').phone := by
      rcases docs with _ | ⟨d1, rest⟩
      · exact absurd rfl hne
      rcases rest with _ | ⟨d2, rest2⟩
      · have : docs' = [d1] := (List.singleton_perm.mp hp).symm
        rw [this]
      · rcases docs' with _ | ⟨e1, rest'⟩
        · exact absurd hp.eq_nil (by simp)
        rcases rest' with _ | ⟨e2, rest2'⟩
        · have := hp.length_eq
          simp at this
        · rw [merge_phone_two, merge_phone_two]
          exact congrArg dedupKeepFirst
            (flatten_perm_le_one _ _ (hp.map SDoc.phone) hph)
    apply SDoc.ext hurl hdate
      (hsc SDoc.title (by simp [scalarGetters]))
      (hsc SDoc.twitter (by simp [scalarGetters]))
      (hsc SDoc.facebook (by simp [scalarGetters]))
      (hsc SDoc.instagram (by simp [scalarGetters]))
      (hsc SDoc.linkedin (by simp [scalarGetters]))
      (hsc SDoc.youtube (by simp [scalarGetters]))
      (hsc SDoc.pinterest (by simp [scalarGetters]))
      (hsc SDoc.email (by simp [scalarGetters]))
      hphone
      (hsc SDoc.postcode (by simp [scalarGetters]))
      (hsc SDoc.statusCode (by simp [scalarGetters]))
      (hsc SDoc.redirect_url (by simp [scalarGetters]))
      (hsc SDoc.meta_description (by simp [scalarGetters]))
  · intro d1 d2 g hg h1
    rw [merge_getter g hg [d1, d2] (by simp), List.map_cons, firstNonEmpty_cons, if_neg h1]

/-- Claim C2, witness for the amended theorem: two same-timestamp records
each setting one field merge order-independently, and the title is the first
non-empty one. -/
theorem mergeRecords_amended_witness :
    SDoc.title (mergeRecordsForSameUrlDate
        [{ emptySDoc "a.com" (some 0) with title := "T" },
         { emptySDoc "a.com" (some 0) with email := "E" }])
      = firstNonEmpty ([{ emptySDoc "a.com" (some 0) with title := "T" },
         { emptySDoc "a.com" (some 0) with email := "E" }].map SDoc.title)
    ∧ mergeRecordsForSameUrlDate
        [{ emptySDoc "a.com" (some 0) with title := "T" },
         { emptySDoc "a.com" (some 0) with email := "E" }]
      = mergeRecordsForSameUrlDate
        [{ emptySDoc "a.com" (some 0) with email := "E" },
         { emptySDoc "a.com" (some 0) with title := "T" }]
    ∧ SDoc.title (mergeRecordsForSameUrlDate
        [{ emptySDoc "a.com" (some 0) with title := "T" },
         { emptySDoc "a.com" (some 0) with title := "S" }])
      = "T" :=
  ⟨mergeRecords_amended.1 _ SDoc.title (by decide) (by simp [scalarGetters]),
   mergeRecords_amended.2.1 "a.com" (some 0) _ _
     (List.Perm.swap { emptySDoc "a.com" (some 0) with email := "E" }
       { emptySDoc "a.com" (some 0) with title := "T" } [])
     (by decide) (by decide)
     (by intro g hg; simp [scalarGetters] at hg
         rcases hg with rfl | rfl | rfl | rfl | rfl | rfl | rfl | rfl | rfl | rfl | rfl | rfl <;>
           decide)
     (by decide),
   mergeRecords_amended.2.2 _ _ SDoc.title (by simp [scalarGetters]) (by decide)⟩

/-- Claim C3, counterexample: a URL that arrives in four `[PN]` rows with four
distinct valid phone numbers is skipped entirely by the end-of-file filter
("more than 3 rows"), so NOTHING is persisted for it — not a phone list of
length min(3, 4) = 3. -/
theorem phoneImport_over3rows_counterexample :
    (processPhoneFileModel
        [["foo.com", "[PN]", "07508770171"],
         ["foo.com", "[PN]", "07508770172"],
         ["foo.com", "[PN]", "07508770173"],
         ["foo.com", "[PN]", "07508770174"]]
        [] ⟨none, 0, 0, 0, 0, [], false, 1, 0⟩ 0).store = []
    ∧ (∀ p ∈ ["07508770171", "07508770172", "07508770173", "07508770174"],
        isValidPhoneNumber p = true)
    ∧ (dedupKeepFirst
        ((["07508770171", "07508770172", "07508770173", "07508770174"]).map
          (fun p => (cleanPhoneNumber p "foo.com").getD ""))).length = 4 :=
  ⟨by decide, by decide, by decide⟩

/-- Claim C3, amended: (cap) after any phone batch no touched or kept record
ever holds more than 3 phone numbers; and (min) for a URL with no existing
records that arrives in at most 3 valid `[PN]` rows — the regime in which the
end-of-file "more than 3 rows" filter keeps the URL — exactly one record is
created whose phone list is the deduplicated cleaned phones, of length
min(3, number of distinct cleaned phones).  URLs with more than 3 rows are
skipped entirely (see the counterexample). -/
theorem phoneImport_cap_amended :
    (∀ (m : List (String × List String)) (store : List StoreRec) (now : Int) (tr : PhoneTracker),
        (∀ rec ∈ store, rec.phone.length ≤ 3) →
        ∀ rec ∈ (processPhoneBatch m store now tr).1, rec.phone.length ≤ 3)
    ∧ (∀ (u : String) (ps : List String) (store : List StoreRec) (tr : PhoneTracker) (now : Int),
        trimWs u ≠ "" →
        isValidDomain (phoneCleanUrl (trimWs u)) = true →
        (∀ p ∈ ps, isValidPhoneNumber (trimWs p) = true) →
        ps ≠ [] → ps.length ≤ 3 →
        (∀ rec ∈ store, (rec.url == phoneCleanUrl (trimWs u)) = false) →
        (processPhoneFileModel (ps.map fun p => [u, "[PN]", p]) store tr now).store
            = store ++ [⟨phoneCleanUrl (trimWs u), some now,
                dedupKeepFirst (ps.map fun p =>
                  (cleanPhoneNumber (trimWs p) (phoneCleanUrl (trimWs u))).getD "")⟩]
          ∧ (dedupKeepFirst (ps.map fun p =>
                (cleanPhoneNumber (trimWs p) (phoneCleanUrl (trimWs u))).getD "")).length
              = min 3 (dedupKeepFirst (ps.map fun p =>
                  (cleanPhoneNumber (trimWs p) (phoneCleanUrl (trimWs u))).getD "")).length) := by
  constructor
  · intro m
    induction m with
    | nil =>
      intro store now tr h rec hrec
      exact h rec hrec
    | cons g gs ih =>
      intro store now tr h rec hrec
      have hstep : ∀ r ∈ (processPhoneUrl now (store, tr) g.1 g.2).1, r.phone.length ≤ 3 := by
        intro r hr
        unfold processPhoneUrl at hr
        by_cases hex : (store.filter (fun rec => rec.url == g.1)).isEmpty = true
        · simp only [hex, if_true] at hr
          rcases List.mem_append.mp hr with hr | hr
          · exact h r hr
          · rcases List.mem_singleton.mp hr with rfl
            by_cases hc : 3 < g.2.length
            · simp only [if_pos hc]
              simp [List.length_take]
            · simp only [if_neg hc]
              omega
        · simp only [hex, Bool.false_eq_true, if_false] at hr
          rcases List.mem_map.mp hr with ⟨r0, hr0, hfr⟩
          by_cases hurl : (r0.url == g.1) = true
          · rw [if_pos hurl] at hfr
            rw [← hfr]
            simp [List.length_take]
          · rw [if_neg hurl] at hfr
            rw [← hfr]
            exact h r0 hr0
      exact ih (processPhoneUrl now (store, tr) g.1 g.2).1 now
        (processPhoneUrl now (store, tr) g.1 g.2).2 hstep rec hrec
  · intro u ps store tr now hu0 hdom hv hne hlen hstore
    rcases ps with _ | ⟨p0, ps'⟩
    · exact absurd rfl hne
    have hD : ps'.foldl (fun a q =>
          setAdd a ((cleanPhoneNumber (trimWs q) (phoneCleanUrl (trimWs u))).getD ""))
          [(cleanPhoneNumber (trimWs p0) (phoneCleanUrl (trimWs u))).getD ""]
        = dedupKeepFirst ((p0 :: ps').map fun p =>
            (cleanPhoneNumber (trimWs p) (phoneCleanUrl (trimWs u))).getD "") := by
      show List.foldl
          (fun a q => setAdd a ((cleanPhoneNumber (trimWs q) (phoneCleanUrl (trimWs u))).getD ""))
          [] (p0 :: ps') = _
      rw [foldl_setAdd_clean, foldl_setAdd_eq_dedup]
    have hlen3 : (dedupKeepFirst ((p0 :: ps').map fun p =>
        (cleanPhoneNumber (trimWs p) (phoneCleanUrl (trimWs u))).getD "")).length ≤ 3 := by
      have h1 := dedup_length_le ((p0 :: ps').map fun p =>
        (cleanPhoneNumber (trimWs p) (phoneCleanUrl (trimWs u))).getD "")
      rw [List.length_map] at h1
      omega
    constructor
    · unfold processPhoneFileModel
      rw [List.map_cons, List.foldl_cons,
          phoneRowStep_valid now u p0 ⟨[], [], store, tr⟩ hu0 hdom
            (hv p0 (List.mem_cons_self _ _)) (by simp)]
      have ha : addPhone ([] : List (String × List String)) (phoneCleanUrl (trimWs u))
            ((cleanPhoneNumber (trimWs p0) (phoneCleanUrl (trimWs u))).getD "")
          = [(phoneCleanUrl (trimWs u),
              [(cleanPhoneNumber (trimWs p0) (phoneCleanUrl (trimWs u))).getD ""])] := by
        simp [addPhone]
      have hb : bumpCount ([] : List (String × Nat)) (phoneCleanUrl (trimWs u))
          = [(phoneCleanUrl (trimWs u), 1)] := by
        simp [bumpCount]
      show (phoneFileEnd now ((ps'.map fun p => [u, "[PN]", p]).foldl (phoneRowStep now)
          ⟨addPhone [] (phoneCleanUrl (trimWs u))
              ((cleanPhoneNumber (trimWs p0) (phoneCleanUrl (trimWs u))).getD ""),
            bumpCount [] (phoneCleanUrl (trimWs u)), store,
            { tr with processed := tr.processed + 1 }⟩)).store = _
      rw [ha, hb,
          phoneRows_single_fold now u hu0 hdom ps'
            (fun p hp => hv p (List.mem_cons_of_mem p0 hp)) _ 1 store _]
      rw [hD] at *
      rw [phoneFileEnd_single now (phoneCleanUrl (trimWs u)) _ (1 + ps'.length) store _
            (by simp at hlen; omega) hlen3 hstore]
    · have := hlen3
      omega

/-- Claim C3, witness for the amended theorem: a concrete batch map respects
the cap, and a 3-row single-URL file (with one duplicate phone) creates one
record holding the 2 distinct cleaned phones. -/
theorem phoneImport_cap_amended_witness :
    (∀ rec ∈ (processPhoneBatch [("foo.com", ["1", "2", "3", "4"])] [] 0
        ⟨none, 0, 0, 0, 0, [], false, 1, 0⟩).1, rec.phone.length ≤ 3)
    ∧ ((processPhoneFileModel ((["07508770171", "07508770171", "07508770172"]).map
          fun p => ["foo.com", "[PN]", p]) [] ⟨none, 0, 0, 0, 0, [], false, 1, 0⟩ 7).store
          = [] ++ [⟨phoneCleanUrl (trimWs "foo.com"), some 7,
              dedupKeepFirst ((["07508770171", "07508770171", "07508770172"]).map fun p =>
                (cleanPhoneNumber (trimWs p) (phoneCleanUrl (trimWs "foo.com"))).getD "")⟩]
        ∧ (dedupKeepFirst ((["07508770171", "07508770171", "07508770172"]).map fun p =>
              (cleanPhoneNumber (trimWs p) (phoneCleanUrl (trimWs "foo.com"))).getD "")).length
            = min 3 (dedupKeepFirst ((["07508770171", "07508770171", "07508770172"]).map fun p =>
                (cleanPhoneNumber (trimWs p) (phoneCleanUrl (trimWs "foo.com"))).getD "")).length) :=
  ⟨phoneImport_cap_amended.1 [("foo.com", ["1", "2", "3", "4"])] [] 0
      ⟨none, 0, 0, 0, 0, [], false, 1, 0⟩ (by decide),
   phoneImport_cap_amended.2 "foo.com" ["07508770171", "07508770171", "07508770172"] []
      ⟨none, 0, 0, 0, 0, [], false, 1, 0⟩ 7 (by decide) (by decide) (by decide) (by decide)
      (by decide) (by decide)⟩

/-- Claim C4: at every observable point of an import run — every tracker
state at a suspension point from `setImportRunning(true)` until the run
terminates — the progress shows `isRunning && !isComplete`, so a concurrent
"start import" request hits the controller guard and is answered with a
conflict instead of starting a second pipeline. -/
theorem startImport_single_flight (files : List FileJob) (s : ImportTracker)
    (hs : s ∈ importRunTrace files) :
    s.isRunning = true ∧ s.isComplete = false
      ∧ startImportReq s = StartResult.conflict := by
  have h := runStates_flags files startState rfl s hs
  refine ⟨h.1, h.2, ?_⟩
  unfold startImportReq
  rw [h.1, h.2]
  rfl

/-- Claim C4, witness at a concrete one-file run: the state right after the
file's entry reset is in the trace and yields a conflict. -/
theorem startImport_single_flight_witness :
    (fileEntry startState ⟨"a.csv", [FileEvent.batchOk 1 0], true⟩).isRunning = true
    ∧ (fileEntry startState ⟨"a.csv", [FileEvent.batchOk 1 0], true⟩).isComplete = false
    ∧ startImportReq (fileEntry startState ⟨"a.csv", [FileEvent.batchOk 1 0], true⟩)
        = StartResult.conflict :=
  startImport_single_flight [⟨"a.csv", [FileEvent.batchOk 1 0], true⟩]
    (fileEntry startState ⟨"a.csv", [FileEvent.batchOk 1 0], true⟩) (by decide)

/-- Claim C9, counterexample: over a run spanning two files the counters are
NOT monotonically non-decreasing across successive observations — the second
file's entry reset drops `processed`/`upserted`/`modified` back to 0
(upserted goes 2 then 0, processed goes 3 then 0). -/
theorem importCounters_not_monotone_counterexample :
    ((importRunTrace [⟨"a.csv", [FileEvent.rows 3, FileEvent.batchOk 2 1], true⟩,
        ⟨"b.csv", [FileEvent.rows 1], true⟩]).map ImportTracker.upserted) = [0, 0, 2, 0, 0]
    ∧ nondecreasingN
        ((importRunTrace [⟨"a.csv", [FileEvent.rows 3, FileEvent.batchOk 2 1], true⟩,
          ⟨"b.csv", [FileEvent.rows 1], true⟩]).map ImportTracker.upserted) = false
    ∧ nondecreasingN
        ((importRunTrace [⟨"a.csv", [FileEvent.rows 3, FileEvent.batchOk 2 1], true⟩,
          ⟨"b.csv", [FileEvent.rows 1], true⟩]).map ImportTracker.processed) = false :=
  ⟨by decide, by decide, by decide⟩

theorem chain'_scanl {α β : Type} (f : α → β → α) (R : α → α → Prop)
    (hf : ∀ a b, R a (f a b)) : ∀ (l : List β) (i : α), List.Chain' R (l.scanl f i) := by
  intro l
  induction l with
  | nil =>
    intro i
    rw [List.scanl_nil]
    exact List.chain'_singleton i
  | cons b bs ih =>
    intro i
    rw [List.scanl_cons, List.singleton_append, List.chain'_cons']
    refine ⟨?_, ih (f i b)⟩
    intro y hy
    have hh : (bs.scanl f (f i b)).head? = some (f i b) := by
      cases bs <;> rfl
    rw [hh] at hy
    have : f i b = y := by simpa using hy
    rw [← this]
    exact hf i b

theorem foldl_applyEvent_upserted :
    ∀ (es : List FileEvent) (t : ImportTracker),
      (es.foldl applyEvent t).upserted = t.upserted + (es.map evUpserted).sum := by
  intro es
  induction es with
  | nil => intro t; simp
  | cons e es ih =>
    intro t
    rw [List.foldl_cons, ih, List.map_cons, List.sum_cons]
    cases e <;> simp [applyEvent, evUpserted] <;> omega

theorem foldl_applyEvent_modified :
    ∀ (es : List FileEvent) (t : ImportTracker),
      (es.foldl applyEvent t).modified = t.modified + (es.map evModified).sum := by
  intro es
  induction es with
  | nil => intro t; simp
  | cons e es ih =>
    intro t
    rw [List.foldl_cons, ih, List.map_cons, List.sum_cons]
    cases e <;> simp [applyEvent, evModified] <;> omega

/-- Claim C9, amended: WITHIN one file the successive observable tracker
states have monotonically non-decreasing `processed`, `upserted` and
`modified`, and a file's final `upserted`/`modified` equal the sum of its
successful batches' results, each counted exactly once; across files the
counters are reset by each file's entry (see the counterexample). -/
theorem importCounters_file_monotone_amended :
    ∀ (t : ImportTracker) (f : FileJob),
      List.Chain'
        (fun a b => a.processed ≤ b.processed ∧ a.upserted ≤ b.upserted
          ∧ a.modified ≤ b.modified) (fileStates t f)
      ∧ (fileFinal t f).upserted = (f.events.map evUpserted).sum
      ∧ (fileFinal t f).modified = (f.events.map evModified).sum := by
  intro t f
  have hfu : (fileFinal t f).upserted
      = (f.events.foldl applyEvent (fileEntry t f)).upserted := by
    unfold fileFinal
    cases hok : f.endsOk <;> simp [hok]
  have hfm : (fileFinal t f).modified
      = (f.events.foldl applyEvent (fileEntry t f)).modified := by
    unfold fileFinal
    cases hok : f.endsOk <;> simp [hok]
  refine ⟨?_, ?_, ?_⟩
  · apply chain'_scanl
    intro a b
    cases b <;> simp [applyEvent]
  · rw [hfu, foldl_applyEvent_upserted]
    simp [fileEntry]
  · rw [hfm, foldl_applyEvent_modified]
    simp [fileEntry]

/-- Claim C1, witness: a concrete one-document batch whose bulk write fails
with code 11000. -/
theorem insertBatch_dupkey_fallback_throws_witness :
    insertBatch [emptySDoc "a.com" (some 0)] "f.csv" 5 startState
      (BulkOutcome.err (JsError.mongo 11000 "E11000 duplicate key"))
      (fun _ => Except.ok ⟨1, 0⟩)
      = (startState, Except.error (JsError.referenceError "urlDateGroups")) :=
  insertBatch_dupkey_fallback_throws [emptySDoc "a.com" (some 0)] "f.csv" 5 startState
    (JsError.mongo 11000 "E11000 duplicate key") (fun _ => Except.ok ⟨1, 0⟩)
    [("a.com_0", emptySDoc "a.com" (some 0))] (by decide) (by decide)

